import Mathlib

/-!
# Verification of the Obsidian-Image-Scaler parser, rewriter and resize controller

This file is a shallow embedding of the image-syntax parser
(`src/utils` / `part_003`: `parseMarkdown`, `parseWikilink`, `parseHtml`,
`parseImageSyntaxFromLine`, `escapeHtml`) and of the pure decision logic of
`ImageResizeController` (`part_006`: `startResize`, `handleDocumentMouseMove`,
`handleDocumentMouseUp`).

The source parsers are driven by JavaScript regular expressions, so the file
first gives a small backtracking regex engine (ordered alternation, greedy and
lazy quantifiers, capture groups) with exactly the JS backtracking search
order.  Every star/plus occurring in the source regexes quantifies a
single-character class, which the engine exploits: its star constructors take a
character class directly, making the engine structurally terminating.

JS strings are modelled as `String`/`List Char`, JS numbers over the integers
that actually occur (`Nat` for the parsed sizes and zooms, `ℚ` for the pointer
geometry of the drag), `undefined`/`null` as `Option`, and JS truthiness tests
(`if (x)`, `x || y`) explicitly via `jsTruthy`/`jsOr`/`truthyNum`.
-/

namespace ImageScaler

/-! ## A backtracking regex engine with JS search order -/

/-- Regex ASTs.  `ch p` is a single-character class (literal characters are
the class `(· == c)`), `alt` is ordered alternation (left branch first, as in
JS), `optG` a greedy `?`, `starG p` a greedy `*` over a character class,
`starL p` a lazy `*?` over a character class, and `group i a` the `i`-th
capture group. -/
inductive RE where
  | eps : RE
  | ch (p : Char → Bool) : RE
  | seq (a b : RE) : RE
  | alt (a b : RE) : RE
  | optG (a : RE) : RE
  | starG (p : Char → Bool) : RE
  | starL (p : Char → Bool) : RE
  | group (i : Nat) (a : RE) : RE

/-- Captures: group index ↦ captured characters.  Entries are consed on; the
most recent binding for an index wins (`List.lookup` finds it first). -/
def Caps : Type := List (Nat × List Char)

instance : DecidableEq Caps := by unfold Caps; infer_instance

/-- Result of a match attempt: the unconsumed suffix and the captures. -/
def Res : Type := Option (List Char × Caps)

instance : DecidableEq Res := by unfold Res; infer_instance

/-- Ordered choice on results: first success wins (JS backtracking order). -/
def obOr (a b : Res) : Res :=
  match a with
  | some r => some r
  | none => b

/-- Record a capture. -/
def setCap (i : Nat) (v : List Char) (caps : Caps) : Caps :=
  (i, v) :: caps

/-- Read a capture (`undefined` when the group never participated). -/
def getCap (caps : Caps) (i : Nat) : Option (List Char) :=
  List.lookup i caps

/-- Length of the maximal prefix of `s` whose characters satisfy `p`. -/
def countRun (p : Char → Bool) : List Char → Nat
  | [] => 0
  | c :: s => if p c then countRun p s + 1 else 0

/-- Greedy star over a class: try consuming `n` characters first, then
backtrack to shorter amounts, down to zero. -/
def starGAux (s : List Char) (caps : Caps) (k : List Char → Caps → Res) : Nat → Res
  | 0 => k s caps
  | n + 1 => obOr (k (s.drop (n + 1)) caps) (starGAux s caps k n)

/-- Lazy star over a class: try consuming nothing first, then extend one
character at a time. -/
def starLAux (p : Char → Bool) : List Char → Caps → (List Char → Caps → Res) → Res
  | s, caps, k =>
    obOr (k s caps)
      (match s with
       | [] => none
       | c :: s' => if p c then starLAux p s' caps k else none)

/-- The backtracking matcher, in continuation-passing style.  `run r s caps k`
attempts to match `r` at the start of `s` and calls `k` with the remaining
suffix and updated captures; on failure of `k` it backtracks through the
remaining possibilities in the JS order before giving up. -/
def run : RE → List Char → Caps → (List Char → Caps → Res) → Res
  | .eps, s, caps, k => k s caps
  | .ch _, [], _, _ => none
  | .ch p, c :: s, caps, k => if p c then k s caps else none
  | .seq a b, s, caps, k => run a s caps (fun t caps' => run b t caps' k)
  | .alt a b, s, caps, k => obOr (run a s caps k) (run b s caps k)
  | .optG a, s, caps, k => obOr (run a s caps k) (k s caps)
  | .starG p, s, caps, k => starGAux s caps k (countRun p s)
  | .starL p, s, caps, k => starLAux p s caps k
  | .group i a, s, caps, k =>
      run a s caps (fun t caps' => k t (setCap i (s.take (s.length - t.length)) caps'))

/-- Initial continuation: accept whatever remains. -/
def kInit : List Char → Caps → Res := fun t caps => some (t, caps)

/-- `String.prototype.match` without the `g` flag: try the regex at position
0, 1, 2, …, returning the first (leftmost) successful match together with its
index, matched text and captures. -/
def findAux (r : RE) : List Char → Nat → Option (Nat × List Char × Caps)
  | [], i =>
    match run r [] [] kInit with
    | some (t, caps) => some (i, ([] : List Char).take (0 - t.length), caps)
    | none => none
  | c :: s', i =>
    match run r (c :: s') [] kInit with
    | some (t, caps) =>
        some (i, (c :: s').take ((c :: s').length - t.length), caps)
    | none => findAux r s' (i + 1)

/-- Leftmost match of `r` in `s`: `(index, matched text, captures)`. -/
def matchFirst (r : RE) (s : String) : Option (Nat × List Char × Caps) :=
  findAux r s.data 0

/-- Anchored match (`/^…$/`): the whole string must be consumed. -/
def matchFull (r : RE) (s : String) : Option Caps :=
  match run r s.data [] (fun t caps => if t.isEmpty then some (t, caps) else none) with
  | some (_, caps) => some caps
  | none => none

/-! ## Character classes of the source regexes -/

/-- The single-quote character `'` (written via its code point). -/
def squote : Char := Char.ofNat 39

/-- JS `\d`. -/
def isDig (c : Char) : Bool := 48 ≤ c.toNat && c.toNat ≤ 57

/-- JS `\s` (the ECMAScript WhiteSpace ∪ LineTerminator set). -/
def isJsWs (c : Char) : Bool :=
  let n := c.toNat
  n == 9 || n == 10 || n == 11 || n == 12 || n == 13 || n == 32 ||
  n == 160 || n == 0x1680 || (0x2000 ≤ n && n ≤ 0x200a) ||
  n == 0x2028 || n == 0x2029 || n == 0x202f || n == 0x205f ||
  n == 0x3000 || n == 0xfeff

/-- JS `["']`. -/
def isQuote (c : Char) : Bool := c == '"' || c == squote

/-- JS `[^"']`. -/
def notQuote (c : Char) : Bool := !(isQuote c)

/-- JS `[^>]`. -/
def notGt (c : Char) : Bool := !(c == '>')

/-- JS `[^>\s]`. -/
def notGtWs (c : Char) : Bool := !(c == '>') && !(isJsWs c)

/-- JS `[^)]`. -/
def notRPar (c : Char) : Bool := !(c == ')')

/-- JS `[^|\]]`. -/
def notPipeBr (c : Char) : Bool := !(c == '|' || c == ']')

/-- JS `.` (anything but a line terminator; no `s` flag anywhere). -/
def dotC (c : Char) : Bool :=
  !(c == Char.ofNat 10 || c == Char.ofNat 13 ||
    c == Char.ofNat 0x2028 || c == Char.ofNat 0x2029)

/-- The ASCII case swap, used to model the `i` flag on letters. -/
def asciiSwapCase (c : Char) : Char :=
  if 97 ≤ c.toNat && c.toNat ≤ 122 then Char.ofNat (c.toNat - 32)
  else if 65 ≤ c.toNat && c.toNat ≤ 90 then Char.ofNat (c.toNat + 32)
  else c

/-- A case-sensitive literal character. -/
def lit (c : Char) : RE := .ch (fun x => x == c)

/-- A literal character under the `i` flag: matches the character itself or
its ASCII case sibling. -/
def ci (c : Char) : RE := .ch (fun x => x == c || x == asciiSwapCase c)

/-- Greedy `+` over a class: one mandatory character, then a greedy star. -/
def plusCls (p : Char → Bool) : RE := .seq (.ch p) (.starG p)

/-- `\s+`. -/
def plusWs : RE := plusCls isJsWs

/-- Right-nested sequencing of a list of regex fragments. -/
def seqList : List RE → RE
  | [] => .eps
  | r :: rs => .seq r (seqList rs)

/-! ## The source regexes -/

/-- `/!\[(.*?)?(?:\|(\d+(?:x\d+)?))?\]\(([^)]+)\)/` (from `parseMarkdown`). -/
def markdownRegex : RE :=
  seqList [lit '!', lit '[',
    .optG (.group 1 (.starL dotC)),
    .optG (seqList [lit '|',
      .group 2 (seqList [plusCls isDig, .optG (seqList [lit 'x', plusCls isDig])])]),
    lit ']', lit '(',
    .group 3 (plusCls notRPar),
    lit ')']

/-- `/!\[\[([^|\]]+)(?:\|([^|\]]*))?\]\]/` (from `parseWikilink`). -/
def wikilinkRegex : RE :=
  seqList [lit '!', lit '[', lit '[',
    .group 1 (plusCls notPipeBr),
    .optG (seqList [lit '|', .group 2 (.starG notPipeBr)]),
    lit ']', lit ']']

/-- `/^(\d+)(?:x(\d+))?$/` (the strict `W`/`WxH` test inside `parseWikilink`). -/
def wikiDimRegex : RE :=
  seqList [.group 1 (plusCls isDig),
    .optG (seqList [lit 'x', .group 2 (plusCls isDig)])]

/-- The `parseHtml` regex (flag `i`):
`/(<img\s+(?:[^>]*?\s+)?src=(?:["']([^"']+)["']|([^>\s]+))(?:\s+[^>]*?\s*alt=(?:["']([^"']*)["']|([^>\s]*)))?(?:\s+[^>]*?\s*style=(?:["']([^"']+)["']|([^>\s]+)))?[^>]*?>)/i` -/
def htmlImgRegex : RE :=
  .group 1 (seqList [
    lit '<', ci 'i', ci 'm', ci 'g',
    plusWs,
    .optG (seqList [.starL notGt, plusWs]),
    ci 's', ci 'r', ci 'c', lit '=',
    .alt (seqList [.ch isQuote, .group 2 (plusCls notQuote), .ch isQuote])
         (.group 3 (plusCls notGtWs)),
    .optG (seqList [plusWs, .starL notGt, .starG isJsWs,
      ci 'a', ci 'l', ci 't', lit '=',
      .alt (seqList [.ch isQuote, .group 4 (.starG notQuote), .ch isQuote])
           (.group 5 (.starG notGtWs))]),
    .optG (seqList [plusWs, .starL notGt, .starG isJsWs,
      ci 's', ci 't', ci 'y', ci 'l', ci 'e', lit '=',
      .alt (seqList [.ch isQuote, .group 6 (plusCls notQuote), .ch isQuote])
           (.group 7 (plusCls notGtWs))]),
    .starL notGt, lit '>'])

/-- `/width:\s*(\d+)px/i` (scan of the `style` attribute). -/
def widthRegex : RE :=
  seqList [ci 'w', ci 'i', ci 'd', ci 't', ci 'h', lit ':',
    .starG isJsWs, .group 1 (plusCls isDig), ci 'p', ci 'x']

/-- `/height:\s*(\d+)px/i` (scan of the `style` attribute). -/
def heightRegex : RE :=
  seqList [ci 'h', ci 'e', ci 'i', ci 'g', ci 'h', ci 't', lit ':',
    .starG isJsWs, .group 1 (plusCls isDig), ci 'p', ci 'x']

/-- `/zoom:\s*(\d+)%?/i` (scan of the `style` attribute; `%` optional). -/
def zoomRegex : RE :=
  seqList [ci 'z', ci 'o', ci 'o', ci 'm', lit ':',
    .starG isJsWs, .group 1 (plusCls isDig), .optG (lit '%')]

/-- The dynamically built relocation regex of `handleDocumentMouseUp`:
`new RegExp('<img\\s+src=(?:["\']P["\']|P)[^>]*>', 'i')` where `P` is the
session path made literal by `escapeRegExp` (so it is embedded here as a
literal character sequence, each character case-insensitive under the
`i` flag). -/
def imgReplaceRegex (path : List Char) : RE :=
  seqList ([lit '<', ci 'i', ci 'm', ci 'g', plusWs,
    ci 's', ci 'r', ci 'c', lit '=',
    .alt (seqList ([.ch isQuote] ++ path.map ci ++ [.ch isQuote]))
         (seqList (path.map ci)),
    .starG notGt, lit '>'])

/-! ## JS helpers: truthiness, trim, parseInt, number formatting -/

/-- JS string truthiness: `undefined` and `""` are falsy.  `jsTruthy x` is
`some s` exactly when `if (x)` would take the then-branch. -/
def jsTruthy (o : Option String) : Option String :=
  match o with
  | some s => if s.isEmpty then none else some s
  | none => none

/-- JS `a || b` on string-or-undefined values. -/
def jsOr (a b : Option String) : Option String :=
  match jsTruthy a with
  | some s => some s
  | none => b

/-- JS numeric truthiness on number-or-undefined values (`0` is falsy). -/
def truthyNum (o : Option Nat) : Option Nat :=
  match o with
  | some 0 => none
  | x => x

/-- JS `String.prototype.trim` (drops `\s` characters at both ends). -/
def jsTrim (l : List Char) : List Char :=
  ((l.dropWhile isJsWs).reverse.dropWhile isJsWs).reverse

/-- `trim` on `String`. -/
def jsTrimStr (s : String) : String := ⟨jsTrim s.data⟩

/-- `parseInt(s, 10)` on the digit-only strings produced by the `\d+`
captures of the source regexes. -/
def parseIntBase10 (s : String) : Nat :=
  s.data.foldl (fun n c => n * 10 + (c.toNat - 48)) 0

/-- Fuelled digit production (structural recursion on the fuel, so that the
kernel can evaluate it; `natDigits` supplies enough fuel). -/
def natDigitsAux (fuel : Nat) (n : Nat) : List Char :=
  match fuel with
  | 0 => []
  | fuel + 1 =>
    if n < 10 then [Char.ofNat (48 + n)]
    else natDigitsAux fuel (n / 10) ++ [Char.ofNat (48 + n % 10)]

/-- Decimal digits of `n` (JS number-to-string for the nonnegative integers
interpolated into the rendered tags). -/
def natDigits (n : Nat) : List Char := natDigitsAux (n + 1) n

/-- Decimal string of `n`. -/
def natToStr (n : Nat) : String := ⟨natDigits n⟩

/-- One global single-character replacement, `s.replace(/c/g, rep)`. -/
def replaceAllChar (t : Char) (rep : String) (s : String) : String :=
  ⟨s.data.flatMap (fun c => if c == t then rep.data else [c])⟩

/-- `escapeHtml` (from `part_003`): escape `&`, `<`, `>`, `"`, `'` in that
order. -/
def escapeHtml (s : String) : String :=
  replaceAllChar squote "&#039;"
    (replaceAllChar '"' "&quot;"
      (replaceAllChar '>' "&gt;"
        (replaceAllChar '<' "&lt;"
          (replaceAllChar '&' "&amp;" s))))

/-! ## The parsed-info record and the three grammar parsers -/

/-- The `ParsedImageInfo` record of the source (`undefined` fields are
`none`). -/
structure ParsedImageInfo where
  path : String
  altText : Option String
  specifiedWidth : Option Nat
  specifiedHeight : Option Nat
  originalMatch : String
  startIndexInLine : Nat
  isHtml : Bool
  currentZoomPercent : Option Nat
deriving DecidableEq, Repr

/-- `parseMarkdown` (from `part_003`): match the Markdown regex, split the
optional `W`/`WxH` dimension capture on `"x"`, trim the path. -/
def parseMarkdown (lineText : String) : Option ParsedImageInfo :=
  match matchFirst markdownRegex lineText with
  | none => none
  | some (idx, m0, caps) =>
    let altText := jsTruthy ((getCap caps 1).map (⟨·⟩))
    let dimensionsString := (getCap caps 2).map (fun l => (⟨l⟩ : String))
    let path := jsTrimStr ⟨(getCap caps 3).getD []⟩
    let wh : Option Nat × Option Nat :=
      match jsTruthy dimensionsString with
      | some ds =>
        let dims := ds.splitOn "x"
        ((if (dims.getD 0 "").isEmpty then none
          else some (parseIntBase10 (dims.getD 0 ""))),
         (if 1 < dims.length then
            (if (dims.getD 1 "").isEmpty then none
             else some (parseIntBase10 (dims.getD 1 "")))
          else none))
      | none => (none, none)
    some { path := path, altText := altText,
           specifiedWidth := wh.1, specifiedHeight := wh.2,
           originalMatch := ⟨m0⟩, startIndexInLine := idx,
           isHtml := false, currentZoomPercent := none }

/-- The strict `^W(xH)?$` test of `parseWikilink`: `none` when the suffix is
not a pure dimension string, otherwise the width/height pair (each guarded by
the truthiness tests `if (dimMatch[1])` / `if (dimMatch[2])` of the source). -/
def wikiDims (s : String) : Option (Option Nat × Option Nat) :=
  match matchFull wikiDimRegex s with
  | none => none
  | some caps =>
    some ((match jsTruthy ((getCap caps 1).map (⟨·⟩)) with
           | some d => some (parseIntBase10 d)
           | none => none),
          (match jsTruthy ((getCap caps 2).map (⟨·⟩)) with
           | some d => some (parseIntBase10 d)
           | none => none))

/-- The suffix classification of `parseWikilink`: `altText` defaults to the
pipe suffix; when the suffix is truthy and matches the strict dimension
regex it becomes width/height and `altText` is reset to `undefined`.
Returns `(altText, specifiedWidth, specifiedHeight)`. -/
def wikiClassify (altOrDimensions : Option String) :
    Option String × Option Nat × Option Nat :=
  match jsTruthy altOrDimensions with
  | none => (altOrDimensions, none, none)
  | some s =>
    match wikiDims s with
    | some (w, h) => (none, w, h)
    | none => (altOrDimensions, none, none)

/-- `parseWikilink` (from `part_003`). -/
def parseWikilink (lineText : String) : Option ParsedImageInfo :=
  match matchFirst wikilinkRegex lineText with
  | none => none
  | some (idx, m0, caps) =>
    let path := jsTrimStr ⟨(getCap caps 1).getD []⟩
    let altOrDimensions := (getCap caps 2).map (fun l => (⟨l⟩ : String))
    let awh := wikiClassify altOrDimensions
    some { path := path, altText := awh.1,
           specifiedWidth := awh.2.1, specifiedHeight := awh.2.2,
           originalMatch := ⟨m0⟩, startIndexInLine := idx,
           isHtml := false, currentZoomPercent := none }

/-- `parseHtml` (from `part_003`): match the `<img>` regex; `src` value from
groups 2/3, `alt` from 4/5, `style` from 6/7 (each via JS `||`); scan the
style string independently for `width`, `height` and `zoom`; require a truthy
`src` value; trim path and alt. -/
def parseHtml (lineText : String) : Option ParsedImageInfo :=
  match matchFirst htmlImgRegex lineText with
  | none => none
  | some (idx, m0, caps) =>
    let pathO := jsOr ((getCap caps 2).map (⟨·⟩)) ((getCap caps 3).map (⟨·⟩))
    let altTextO := jsOr ((getCap caps 4).map (⟨·⟩)) ((getCap caps 5).map (⟨·⟩))
    let styleStringO := jsOr ((getCap caps 6).map (⟨·⟩)) ((getCap caps 7).map (⟨·⟩))
    let swh : Option Nat × Option Nat × Option Nat :=
      match jsTruthy styleStringO with
      | none => (none, none, none)
      | some sty =>
        ((match matchFirst widthRegex sty with
          | some (_, _, c) =>
            (match jsTruthy ((getCap c 1).map (⟨·⟩)) with
             | some d => some (parseIntBase10 d)
             | none => none)
          | none => none),
         (match matchFirst heightRegex sty with
          | some (_, _, c) =>
            (match jsTruthy ((getCap c 1).map (⟨·⟩)) with
             | some d => some (parseIntBase10 d)
             | none => none)
          | none => none),
         (match matchFirst zoomRegex sty with
          | some (_, _, c) =>
            (match jsTruthy ((getCap c 1).map (⟨·⟩)) with
             | some d => some (parseIntBase10 d)
             | none => none)
          | none => none))
    match jsTruthy pathO with
    | none => none
    | some p =>
      some { path := jsTrimStr p,
             altText := (jsTruthy altTextO).map jsTrimStr,
             specifiedWidth := swh.1, specifiedHeight := swh.2.1,
             originalMatch := ⟨m0⟩, startIndexInLine := idx,
             isHtml := true, currentZoomPercent := swh.2.2 }

/-- `parseImageSyntaxFromLine` (from `part_003`): Markdown first, then
Wikilink, then the HTML `<img>` tag. -/
def parseImageSyntaxFromLine (lineText : String) : Option ParsedImageInfo :=
  match parseMarkdown lineText with
  | some result => some result
  | none =>
    match parseWikilink lineText with
    | some result => some result
    | none => parseHtml lineText

/-! ## The controller (`part_006`) -/

/-- The `LineDetails` snapshot of the source. -/
structure LineDetails where
  pos : Nat
  lineText : String
  lineFrom : Nat
  lineTo : Nat
deriving DecidableEq, Repr

/-- One text replacement `{ from, to, insert }` handed to the editor. -/
structure TextChange where
  fromPos : Nat
  toPos : Nat
  insert : String
deriving DecidableEq, Repr

/-- The tag construction shared verbatim by `startResize` (lines 81–93) and
`handleDocumentMouseUp` (lines 165–179): `width`/`height` pieces only for
truthy source dimensions, always a `zoom` piece, `alt` HTML-escaped when
truthy, the whole built style string trimmed. -/
def renderImgTag (path : String) (altText : Option String)
    (sourceWidth sourceHeight : Option Nat) (zoomPercent : Nat) : String :=
  let styleString :=
    (match truthyNum sourceWidth with
     | some w => "width: " ++ natToStr w ++ "px; "
     | none => "") ++
    (match truthyNum sourceHeight with
     | some h => "height: " ++ natToStr h ++ "px; "
     | none => "") ++
    ("zoom: " ++ natToStr zoomPercent ++ "%;")
  let safeAltText :=
    match jsTruthy altText with
    | some a => escapeHtml a
    | none => ""
  "<img src=\"" ++ path ++ "\" alt=\"" ++ safeAltText ++ "\" style=\"" ++
    jsTrimStr styleString ++ "\">"

/-- The text replacement dispatched by `startResize`: `none` when the parsed
notation is already HTML (no mutation at arm time); otherwise the single
upgrade replacement over the original notation's span, inserting the rendered
tag with baseline zoom 100. -/
def armChange (lineInfo : LineDetails) (parsedInfo : ParsedImageInfo) :
    Option TextChange :=
  if parsedInfo.isHtml then none
  else
    let newImgTag :=
      renderImgTag parsedInfo.path parsedInfo.altText
        parsedInfo.specifiedWidth parsedInfo.specifiedHeight 100
    let fromPos := lineInfo.lineFrom + parsedInfo.startIndexInLine
    some { fromPos := fromPos,
           toPos := fromPos + parsedInfo.originalMatch.length,
           insert := newImgTag }

/-- The baseline zoom adopted by `startResize`: the parsed `currentZoomPercent`
when the notation is HTML and the field is not `undefined`, else 100. -/
def armBaselineZoom (parsedInfo : ParsedImageInfo) : Nat :=
  if parsedInfo.isHtml then parsedInfo.currentZoomPercent.getD 100 else 100

/-- The zoom computed on a pointer-move event (`handleDocumentMouseMove`,
lines 126–141): `round(baseline + (currentDistance − initialDistance) × 0.2)`
clamped to `[10, 500]`.  Distances and the baseline are rationals standing
for the JS doubles; `jsRound` is `Math.round` (half toward +∞). -/
def jsRound (q : ℚ) : ℤ := ⌊q + 1 / 2⌋

/-- `handleDocumentMouseMove`'s `newZoom`. -/
def computeNewZoom (baselineZoomPercent initialDistanceToCenter
    currentDistanceToCenter : ℚ) : ℤ :=
  let distanceChange := currentDistanceToCenter - initialDistanceToCenter
  let zoomDelta := distanceChange * (1 / 5)
  let newZoom := jsRound (baselineZoomPercent + zoomDelta)
  max 10 (min newZoom 500)

/-- The commit step of `handleDocumentMouseUp` (lines 157–224), as the text
replacement it dispatches (or `none` when it aborts).  Inputs: the current
text of the line at the session's `lineFrom`, the stale `lineInfoAtDragStart`
snapshot, the session's `draggedImageInfo` fields and the final zoom read
back from the element style.  The span is located first by the dynamic
`<img src=path…>` regex on the current line, else by re-parsing the stale
snapshot and comparing paths; if both fail the handler resets the session and
returns without dispatching. -/
def handleMouseUpChange (currentLineContent : String)
    (lineInfoAtDragStart : LineDetails) (path : String)
    (altText : Option String) (sourceWidth sourceHeight : Option Nat)
    (finalZoomRead : Nat) : Option TextChange :=
  let finalZoomPercent := max 10 (min finalZoomRead 500)
  let newImgTagFinal := renderImgTag path altText sourceWidth sourceHeight finalZoomPercent
  match matchFirst (imgReplaceRegex path.data) currentLineContent with
  | some (idx, m0, _) =>
    some { fromPos := lineInfoAtDragStart.lineFrom + idx,
           toPos := lineInfoAtDragStart.lineFrom + idx + m0.length,
           insert := newImgTagFinal }
  | none =>
    match parseImageSyntaxFromLine lineInfoAtDragStart.lineText with
    | some originalSyntaxInfo =>
      if originalSyntaxInfo.path == path then
        some { fromPos := lineInfoAtDragStart.lineFrom + originalSyntaxInfo.startIndexInLine,
               toPos := lineInfoAtDragStart.lineFrom + originalSyntaxInfo.startIndexInLine +
                 originalSyntaxInfo.originalMatch.length,
               insert := newImgTagFinal }
      else none
    | none => none

/-- Applying an optional replacement to a document text:  `none` leaves the
document untouched. -/
def applyOptChange (doc : String) : Option TextChange → String
  | none => doc
  | some c => ⟨doc.data.take c.fromPos ++ c.insert.data ++ doc.data.drop c.toPos⟩

end ImageScaler

namespace ImageScaler

/-! ## Helper lemmas -/

theorem dropWhile_idem (p : Char → Bool) (l : List Char) :
    (l.dropWhile p).dropWhile p = l.dropWhile p := by
  induction l with
  | nil => rfl
  | cons a l ih =>
    rw [List.dropWhile_cons]
    by_cases hp : p a = true
    · simp [hp, ih]
    · simp [hp, List.dropWhile_cons]

theorem head_dropWhile_false (p : Char → Bool) (l : List Char) {c : Char}
    {t : List Char} (h : l.dropWhile p = c :: t) : p c = false := by
  induction l with
  | nil => simp at h
  | cons a l ih =>
    rw [List.dropWhile_cons] at h
    by_cases hp : p a = true
    · rw [if_pos hp] at h; exact ih h
    · rw [if_neg hp] at h
      obtain ⟨rfl, -⟩ := List.cons.injEq .. ▸ h
      simpa using hp

theorem dropWhile_eq_self_of_all (p : Char → Bool) (l : List Char)
    (h : ∀ c ∈ l, p c = false) : l.dropWhile p = l := by
  cases l with
  | nil => rfl
  | cons a l => rw [List.dropWhile_cons, if_neg (by simp [h a (by simp)])]

theorem jsTrim_idempotent (l : List Char) : jsTrim (jsTrim l) = jsTrim l := by
  unfold jsTrim
  have hsfx : (l.dropWhile isJsWs).reverse.dropWhile isJsWs <:+
      (l.dropWhile isJsWs).reverse := List.dropWhile_suffix _
  have hpre : ((l.dropWhile isJsWs).reverse.dropWhile isJsWs).reverse <+:
      l.dropWhile isJsWs := List.reverse_suffix.mp (by simpa using hsfx)
  have h1 : ((l.dropWhile isJsWs).reverse.dropWhile isJsWs).reverse.dropWhile isJsWs =
      ((l.dropWhile isJsWs).reverse.dropWhile isJsWs).reverse := by
    cases hBr : ((l.dropWhile isJsWs).reverse.dropWhile isJsWs).reverse with
    | nil => rfl
    | cons c t =>
      obtain ⟨r, hr⟩ := hpre
      rw [hBr] at hr
      have hc : isJsWs c = false := head_dropWhile_false isJsWs l hr.symm
      rw [List.dropWhile_cons, if_neg (by simp [hc])]
  rw [h1, List.reverse_reverse, dropWhile_idem]

theorem jsTrimStr_idempotent (s : String) :
    jsTrimStr (jsTrimStr s) = jsTrimStr s := by
  unfold jsTrimStr
  exact congrArg String.mk (jsTrim_idempotent s.data)

theorem jsTrim_of_all_not_ws (l : List Char) (h : ∀ c ∈ l, isJsWs c = false) :
    jsTrim l = l := by
  unfold jsTrim
  rw [dropWhile_eq_self_of_all _ _ h,
    dropWhile_eq_self_of_all _ _ (fun c hc => h c (by simpa using hc)),
    List.reverse_reverse]

theorem isEmpty_mk (l : List Char) : (String.mk l).isEmpty = l.isEmpty := by
  cases l with
  | nil => rfl
  | cons c t =>
    have hne : (String.mk (c :: t)) ≠ "" := by
      intro h
      exact absurd (congrArg String.data h) (by simp)
    simp only [List.isEmpty_cons]
    exact Bool.eq_false_iff.mpr (fun he => hne ((String.isEmpty_iff _).mp he))

theorem mem_replaceAllChar {c t : Char} {rep s : String}
    (h : c ∈ (replaceAllChar t rep s).data) :
    c ∈ rep.data ∨ (c ∈ s.data ∧ (c == t) = false) := by
  unfold replaceAllChar at h
  simp only [List.mem_flatMap] at h
  obtain ⟨a, ha, hc⟩ := h
  by_cases hat : (a == t) = true
  · rw [if_pos hat] at hc; exact Or.inl hc
  · rw [if_neg hat] at hc
    simp only [List.mem_singleton] at hc
    subst hc
    exact Or.inr ⟨ha, by simpa using hat⟩

end ImageScaler

namespace ImageScaler

/-! ## Claim theorems -/

/-- C1.  For every input line on which both the Markdown grammar and the
HTML-tag grammar have a match (at any positions in the line),
`parseImageSyntaxFromLine` returns the Markdown-notation result, regardless of
which match occurs earlier in the line: the dispatcher tries the whole-line
grammars in the fixed order Markdown, Wikilink, HTML-tag
(first-notation-wins, not first-position-wins). -/
theorem c1_markdown_beats_html (line : String) (r rh : ParsedImageInfo)
    (hm : parseMarkdown line = some r) (hh : parseHtml line = some rh) :
    parseImageSyntaxFromLine line = some r ∧ r.isHtml = false ∧ rh.isHtml = true := by
  refine ⟨?_, ?_, ?_⟩
  · unfold parseImageSyntaxFromLine
    rw [hm]
  · rw [parseMarkdown.eq_def] at hm
    split at hm
    · exact absurd hm (by simp)
    · rw [← Option.some.inj hm]
  · rw [parseHtml.eq_def] at hh
    split at hh
    · exact absurd hh (by simp)
    · dsimp only at hh
      split at hh
      · exact absurd hh (by simp)
      · rw [← Option.some.inj hh]

/-- Witness for C1 on the line `<img src="a.png"> ![b](c.png)`: the HTML tag
occurs first in the line (index 0), the Markdown reference later (index 18),
and the parser still returns the Markdown result. -/
theorem c1_markdown_beats_html_witness :
    parseImageSyntaxFromLine "<img src=\"a.png\"> ![b](c.png)" =
      some ⟨"c.png", some "b", none, none, "![b](c.png)", 18, false, none⟩ :=
  (c1_markdown_beats_html "<img src=\"a.png\"> ![b](c.png)"
    ⟨"c.png", some "b", none, none, "![b](c.png)", 18, false, none⟩
    ⟨"a.png", none, none, none, "<img src=\"a.png\">", 0, true, none⟩
    (by rfl) (by rfl)).1

/-- C3.  For every baseline zoom and every pair of pointer distances to the
image centre, the zoom computed on a pointer-move event —
`round(baseline + (currentDistance − initialDistance) × 0.2)` clamped — lies
in `[10, 500]` inclusive. -/
theorem c3_zoom_always_clamped (baselineZoomPercent initialDistanceToCenter
    currentDistanceToCenter : ℚ) :
    10 ≤ computeNewZoom baselineZoomPercent initialDistanceToCenter
        currentDistanceToCenter ∧
      computeNewZoom baselineZoomPercent initialDistanceToCenter
        currentDistanceToCenter ≤ 500 := by
  unfold computeNewZoom
  exact ⟨le_max_left _ _, max_le (by norm_num) (min_le_right _ _)⟩

/-- C10.  For every input string, `escapeHtml` output contains none of the
characters `<`, `>`, `"`, `'`; in particular the escaped alt value embedded
by the rewriter can never contain a raw double quote, so no alt text can
terminate the `alt` attribute of the generated `img` tag. -/
theorem c10_escapeHtml_no_specials (s : String) (c : Char)
    (hc : c ∈ (escapeHtml s).data) :
    c ≠ '<' ∧ c ≠ '>' ∧ c ≠ '"' ∧ c ≠ squote := by
  unfold escapeHtml at hc
  rcases mem_replaceAllChar hc with h5 | ⟨hc, hne5⟩
  · rw [show ("&#039;" : String).data = ['&', '#', '0', '3', '9', ';'] from rfl] at h5
    simp only [List.mem_cons, List.not_mem_nil, or_false] at h5
    rcases h5 with rfl | rfl | rfl | rfl | rfl | rfl <;>
      exact ⟨by decide, by decide, by decide, by decide⟩
  · have hne5' : c ≠ squote := by simpa using hne5
    rcases mem_replaceAllChar hc with h4 | ⟨hc, hne4⟩
    · rw [show ("&quot;" : String).data = ['&', 'q', 'u', 'o', 't', ';'] from rfl] at h4
      simp only [List.mem_cons, List.not_mem_nil, or_false] at h4
      rcases h4 with rfl | rfl | rfl | rfl | rfl | rfl <;>
        exact ⟨by decide, by decide, by decide, by decide⟩
    · have hne4' : c ≠ '"' := by simpa using hne4
      rcases mem_replaceAllChar hc with h3 | ⟨hc, hne3⟩
      · rw [show ("&gt;" : String).data = ['&', 'g', 't', ';'] from rfl] at h3
        simp only [List.mem_cons, List.not_mem_nil, or_false] at h3
        rcases h3 with rfl | rfl | rfl | rfl <;>
          exact ⟨by decide, by decide, by decide, by decide⟩
      · have hne3' : c ≠ '>' := by simpa using hne3
        rcases mem_replaceAllChar hc with h2 | ⟨hc, hne2⟩
        · rw [show ("&lt;" : String).data = ['&', 'l', 't', ';'] from rfl] at h2
          simp only [List.mem_cons, List.not_mem_nil, or_false] at h2
          rcases h2 with rfl | rfl | rfl | rfl <;>
            exact ⟨by decide, by decide, by decide, by decide⟩
        · exact ⟨by simpa using hne2, hne3', hne4', hne5'⟩

/-- Witness for C10: on input `a"b'c` (which contains a quote and an
apostrophe) the escaped output contains the letter `a`, and it is none of the
four forbidden characters. -/
theorem c10_escapeHtml_no_specials_witness :
    'a' ∈ (escapeHtml ⟨['a', '"', 'b', squote, 'c']⟩).data ∧
      'a' ≠ '<' ∧ 'a' ≠ '>' ∧ 'a' ≠ '"' ∧ 'a' ≠ squote :=
  ⟨by decide, c10_escapeHtml_no_specials ⟨['a', '"', 'b', squote, 'c']⟩ 'a' (by decide)⟩

end ImageScaler

namespace ImageScaler

/-! ### Shape lemmas for the parser results -/

theorem jsTrim_head_not_ws (l : List Char) {c : Char} {t : List Char}
    (h : jsTrim l = c :: t) : isJsWs c = false := by
  unfold jsTrim at h
  have hsfx : (l.dropWhile isJsWs).reverse.dropWhile isJsWs <:+
      (l.dropWhile isJsWs).reverse := List.dropWhile_suffix _
  have hpre : ((l.dropWhile isJsWs).reverse.dropWhile isJsWs).reverse <+:
      l.dropWhile isJsWs := List.reverse_suffix.mp (by simpa using hsfx)
  obtain ⟨rest, hr⟩ := hpre
  rw [h] at hr
  exact head_dropWhile_false isJsWs l hr.symm

theorem parseMarkdown_shape (line : String) (r : ParsedImageInfo)
    (h : parseMarkdown line = some r) :
    (∃ x, r.path = ⟨jsTrim x⟩) ∧ r.isHtml = false := by
  rw [parseMarkdown.eq_def] at h
  split at h
  · exact absurd h (by simp)
  · rw [← Option.some.inj h]
    exact ⟨⟨_, rfl⟩, rfl⟩

theorem parseWikilink_shape (line : String) (r : ParsedImageInfo)
    (h : parseWikilink line = some r) :
    (∃ x, r.path = ⟨jsTrim x⟩) ∧ r.isHtml = false := by
  rw [parseWikilink.eq_def] at h
  split at h
  · exact absurd h (by simp)
  · rw [← Option.some.inj h]
    exact ⟨⟨_, rfl⟩, rfl⟩

theorem parseHtml_shape (line : String) (r : ParsedImageInfo)
    (h : parseHtml line = some r) :
    (∃ x, r.path = ⟨jsTrim x⟩) ∧ r.isHtml = true ∧
      ∀ a, r.altText = some a → ∃ y, a = jsTrimStr y := by
  rw [parseHtml.eq_def] at h
  split at h
  · exact absurd h (by simp)
  · dsimp only at h
    split at h
    · exact absurd h (by simp)
    · rw [← Option.some.inj h]
      refine ⟨⟨_, rfl⟩, rfl, ?_⟩
      intro a ha
      simp only at ha
      obtain ⟨b, -, hb⟩ := Option.map_eq_some'.mp ha
      exact ⟨b, hb.symm⟩

theorem parse_shape (line : String) (r : ParsedImageInfo)
    (h : parseImageSyntaxFromLine line = some r) :
    (∃ x, r.path = ⟨jsTrim x⟩) ∧
      (r.isHtml = true → ∀ a, r.altText = some a → ∃ y, a = jsTrimStr y) := by
  unfold parseImageSyntaxFromLine at h
  split at h
  · next heq =>
    obtain ⟨hx, hf⟩ := parseMarkdown_shape line r (heq.trans h)
    exact ⟨hx, fun ht => absurd (hf ▸ ht) (by simp)⟩
  · split at h
    · next heq =>
      obtain ⟨hx, hf⟩ := parseWikilink_shape line r (heq.trans h)
      exact ⟨hx, fun ht => absurd (hf ▸ ht) (by simp)⟩
    · obtain ⟨hx, -, halt⟩ := parseHtml_shape line r h
      exact ⟨hx, fun _ => halt⟩

end ImageScaler

namespace ImageScaler

/-- C8 counterexample: on the line `![a]( )` the Markdown grammar matches with
path text `" "`, which trims to the empty string, so the parser returns a
record whose `path` is empty — the claim "path is always non-empty on
success" is false. -/
theorem c8_counterexample_empty_path :
    (parseImageSyntaxFromLine "![a]( )").map ParsedImageInfo.path = some "" := by rfl

/-- C8 amended.  On success the returned `path` is a whitespace-trimmed
string: it carries no leading/trailing whitespace (its first character, when
it has one, is never whitespace), but it can be empty — exactly when the
matched path text was whitespace-only — so "never empty" does not hold. -/
theorem c8_amended_path_trimmed_not_ws (line : String) (r : ParsedImageInfo)
    (h : parseImageSyntaxFromLine line = some r) :
    jsTrimStr r.path = r.path ∧ ∀ c ∈ r.path.data.head?, isJsWs c = false := by
  obtain ⟨⟨x, hx⟩, -⟩ := parse_shape line r h
  constructor
  · rw [hx]
    exact congrArg String.mk (jsTrim_idempotent x)
  · intro c hc
    rw [hx] at hc
    simp only [List.head?] at hc
    rcases hd : jsTrim x with _ | ⟨c', t⟩ <;> rw [hd] at hc
    · simp at hc
    · simp only [Option.mem_def, Option.some.injEq] at hc
      exact hc ▸ jsTrim_head_not_ws x hd

/-- Witness for C8-amended at the line `![a](img.png)`. -/
theorem c8_amended_path_trimmed_not_ws_witness :
    parseImageSyntaxFromLine "![a](img.png)" =
      some ⟨"img.png", some "a", none, none, "![a](img.png)", 0, false, none⟩ ∧
    jsTrimStr "img.png" = "img.png" :=
  ⟨by rfl,
   (c8_amended_path_trimmed_not_ws "![a](img.png)"
     ⟨"img.png", some "a", none, none, "![a](img.png)", 0, false, none⟩ (by rfl)).1⟩

/-- C9 counterexample: on `![ cap ](p.png)` the Markdown parser returns the
alt text `" cap "` verbatim, with its surrounding whitespace — the claim that
`altText` is always trimmed is false (the source trims alt only in
`parseHtml`; `parseMarkdown` and `parseWikilink` return it untrimmed). -/
theorem c9_counterexample_untrimmed_alt :
    (parseImageSyntaxFromLine "![ cap ](p.png)").bind ParsedImageInfo.altText =
        some " cap " ∧
      jsTrimStr " cap " ≠ " cap " := by
  exact ⟨by rfl, by decide⟩

/-- C9 amended.  On every successful parse the returned `path` carries no
leading or trailing whitespace (it is trimmed, with no other normalization);
`altText` is trimmed only when the matched notation is the HTML one —
Markdown and Wikilink return the alt text verbatim. -/
theorem c9_amended_trimming (line : String) (r : ParsedImageInfo)
    (h : parseImageSyntaxFromLine line = some r) :
    jsTrimStr r.path = r.path ∧
      (r.isHtml = true → ∀ a, r.altText = some a → jsTrimStr a = a) := by
  obtain ⟨⟨x, hx⟩, halt⟩ := parse_shape line r h
  refine ⟨?_, ?_⟩
  · rw [hx]
    exact congrArg String.mk (jsTrim_idempotent x)
  · intro ht a ha
    obtain ⟨y, hy⟩ := halt ht a ha
    rw [hy]
    exact jsTrimStr_idempotent y

/-- Witness for C9-amended at the HTML line `<img src=" a.png " alt=" b ">`:
the parse succeeds and both path and alt come back trimmed. -/
theorem c9_amended_trimming_witness :
    parseImageSyntaxFromLine "<img src=\" a.png \" alt=\" b \">" =
      some ⟨"a.png", some "b", none, none, "<img src=\" a.png \" alt=\" b \">",
        0, true, none⟩ ∧
    jsTrimStr "a.png" = "a.png" :=
  ⟨by rfl,
   (c9_amended_trimming "<img src=\" a.png \" alt=\" b \">"
     ⟨"a.png", some "b", none, none, "<img src=\" a.png \" alt=\" b \">",
       0, true, none⟩ (by rfl)).1⟩

end ImageScaler

namespace ImageScaler

/-- C4.  If at pointer release neither (a) the dynamic `<img src=path…>` regex
matches the current line text, nor (b) re-parsing the stale snapshotted line
yields a parse whose path equals the session's path, then
`handleDocumentMouseUp` dispatches no text replacement and any document text
is left unchanged (the handler resets the session and returns). -/
theorem c4_commit_aborts_without_anchor (currentLineContent : String)
    (lineInfoAtDragStart : LineDetails) (path : String) (altText : Option String)
    (sourceWidth sourceHeight : Option Nat) (finalZoomRead : Nat)
    (h1 : matchFirst (imgReplaceRegex path.data) currentLineContent = none)
    (h2 : (parseImageSyntaxFromLine lineInfoAtDragStart.lineText).map
        ParsedImageInfo.path ≠ some path) :
    handleMouseUpChange currentLineContent lineInfoAtDragStart path altText
        sourceWidth sourceHeight finalZoomRead = none ∧
      ∀ doc : String, applyOptChange doc
        (handleMouseUpChange currentLineContent lineInfoAtDragStart path altText
          sourceWidth sourceHeight finalZoomRead) = doc := by
  have hmain : handleMouseUpChange currentLineContent lineInfoAtDragStart path
      altText sourceWidth sourceHeight finalZoomRead = none := by
    rw [handleMouseUpChange.eq_def]
    dsimp only
    simp only [h1]
    rcases hp : parseImageSyntaxFromLine lineInfoAtDragStart.lineText with _ | osi
    · simp only [hp]
    · simp only [hp]
      have hne : (osi.path == path) = false := by
        refine beq_eq_false_iff_ne.mpr ?_
        intro e
        exact h2 (by rw [hp, Option.map, e])
      rw [if_neg (by simp [hne])]
  refine ⟨hmain, fun doc => ?_⟩
  rw [hmain]
  rfl

/-- Witness for C4: session path `img.png`, a current line with no matching
tag and a stale snapshot with no image reference at all — the commit
dispatches nothing. -/
theorem c4_commit_aborts_without_anchor_witness :
    matchFirst (imgReplaceRegex ("img.png" : String).data) "no tag here" = none ∧
      (parseImageSyntaxFromLine ("plain text" : String)).map ParsedImageInfo.path ≠
        some "img.png" ∧
      handleMouseUpChange "no tag here" ⟨0, "plain text", 0, 10⟩ "img.png" none
        none none 150 = none :=
  ⟨by decide, by decide,
   (c4_commit_aborts_without_anchor "no tag here" ⟨0, "plain text", 0, 10⟩
     "img.png" none none none 150 (by decide) (by decide)).1⟩

/-- C5.  Arming a drag on the line `![cap](img.png)` issues exactly one text
replacement (the single `some` change produced by `startResize`'s non-HTML
branch), whose inserted text is exactly
`<img src="img.png" alt="cap" style="zoom: 100%;">` and whose replaced range
is exactly the original notation's matched span within the line
(`lineFrom + 0` to `lineFrom + 15`, the full match). -/
theorem c5_markdown_upgrade_rewrite (lineFrom : Nat) :
    (parseImageSyntaxFromLine "![cap](img.png)").bind
        (armChange ⟨lineFrom, "![cap](img.png)", lineFrom, lineFrom + 15⟩) =
      some ⟨lineFrom, lineFrom + 15,
        "<img src=\"img.png\" alt=\"cap\" style=\"zoom: 100%;\">"⟩ := by
  have hp : parseImageSyntaxFromLine "![cap](img.png)" =
      some ⟨"img.png", some "cap", none, none, "![cap](img.png)", 0, false, none⟩ := by
    rfl
  have htag : renderImgTag "img.png" (some "cap") none none 100 =
      "<img src=\"img.png\" alt=\"cap\" style=\"zoom: 100%;\">" := by rfl
  have hlen : ("![cap](img.png)" : String).length = 15 := by rfl
  rw [hp]
  simp [armChange, htag, hlen]

/-- C6.  When the parsed notation at arm time is already HTML-tag style,
arming performs no text replacement, and the session's baseline zoom equals
the parsed `currentZoomPercent` when present, else 100; in particular for
input `<img src="x.png" style="zoom: 80%;">` the baseline zoom is 80 and no
change is dispatched whatever the line snapshot. -/
theorem c6_html_arm_keeps_text (li : LineDetails) (info : ParsedImageInfo)
    (h : info.isHtml = true) :
    armChange li info = none ∧
      armBaselineZoom info = info.currentZoomPercent.getD 100 ∧
      (parseImageSyntaxFromLine "<img src=\"x.png\" style=\"zoom: 80%;\">").map
          armBaselineZoom = some 80 ∧
      (parseImageSyntaxFromLine "<img src=\"x.png\" style=\"zoom: 80%;\">").map
          (armChange li) = some none := by
  refine ⟨by simp [armChange, h], by simp [armBaselineZoom, h], by rfl, by rfl⟩

/-- Witness for C6 at the parse of `<img src="x.png" style="zoom: 80%;">`. -/
theorem c6_html_arm_keeps_text_witness :
    armChange ⟨0, "", 0, 0⟩
        ⟨"x.png", none, none, none, "<img src=\"x.png\" style=\"zoom: 80%;\">",
          0, true, some 80⟩ = none ∧
      armBaselineZoom
        ⟨"x.png", none, none, none, "<img src=\"x.png\" style=\"zoom: 80%;\">",
          0, true, some 80⟩ = (some 80).getD 100 :=
  ⟨(c6_html_arm_keeps_text ⟨0, "", 0, 0⟩ _ rfl).1,
   (c6_html_arm_keeps_text ⟨0, "", 0, 0⟩
     ⟨"x.png", none, none, none, "<img src=\"x.png\" style=\"zoom: 80%;\">",
       0, true, some 80⟩ rfl).2.1⟩

/-- C7.  The Wikilink suffix classification is a strict either/or: a truthy
suffix matching `^\d+(x\d+)?$` exactly becomes dimensions with `altText`
reset to `undefined`, and any other truthy suffix is kept verbatim as alt
text with both dimensions `undefined`; in particular `![[a.png|150]]`,
`![[a.png|150x80]]` and `![[a.png|caption]]` parse as the spec's examples
say. -/
theorem c7_wikilink_suffix_strict (s : String) (hs : s ≠ "") :
    (match wikiDims s with
     | some wh => wikiClassify (some s) = (none, wh.1, wh.2)
     | none => wikiClassify (some s) = (some s, none, none)) ∧
    parseImageSyntaxFromLine "![[a.png|150]]" =
      some ⟨"a.png", none, some 150, none, "![[a.png|150]]", 0, false, none⟩ ∧
    parseImageSyntaxFromLine "![[a.png|150x80]]" =
      some ⟨"a.png", none, some 150, some 80, "![[a.png|150x80]]", 0, false, none⟩ ∧
    parseImageSyntaxFromLine "![[a.png|caption]]" =
      some ⟨"a.png", some "caption", none, none, "![[a.png|caption]]", 0, false,
        none⟩ := by
  refine ⟨?_, by rfl, by rfl, by rfl⟩
  have hne : s.isEmpty = false := by
    cases s with
    | mk l =>
      rw [isEmpty_mk]
      cases l with
      | nil => exact absurd rfl hs
      | cons c t => rfl
  unfold wikiClassify
  simp only [jsTruthy, hne, Bool.false_eq_true, if_false]
  rcases hd : wikiDims s with _ | ⟨w, h⟩ <;> simp [hd]

/-- Witness for C7 at the dimension suffix `150`. -/
theorem c7_wikilink_suffix_strict_witness :
    wikiClassify (some "150") = (none, some 150, none) ∧ ("150" : String) ≠ "" :=
  ⟨(c7_wikilink_suffix_strict "150" (by decide)).1, by decide⟩

end ImageScaler

namespace ImageScaler

/-! ### Decimal digits and character facts -/

theorem natDigitsAux_fuel (n : Nat) : ∀ f, n < f → natDigitsAux f n = natDigits n := by
  induction n using Nat.strong_induction_on with
  | _ n ih =>
    intro f hf
    cases f with
    | zero => omega
    | succ f =>
      by_cases h10 : n < 10
      · unfold natDigits natDigitsAux
        simp [h10]
      · have hd : n / 10 < n := Nat.div_lt_self (by omega) (by omega)
        unfold natDigits
        unfold natDigitsAux
        simp only [h10, if_false]
        rw [ih (n / 10) hd f (by omega), ih (n / 10) hd n hd]

theorem toNat_digitChar (m : Nat) (h : m < 10) :
    (Char.ofNat (48 + m)).toNat = 48 + m := by
  interval_cases m <;> decide

theorem isDig_digitChar (m : Nat) (h : m < 10) :
    isDig (Char.ofNat (48 + m)) = true := by
  interval_cases m <;> decide

/-- The value read back by `parseIntBase10`, on lists. -/
def digitsVal (l : List Char) : Nat :=
  l.foldl (fun n c => n * 10 + (c.toNat - 48)) 0

theorem parseIntBase10_mk (l : List Char) :
    parseIntBase10 ⟨l⟩ = digitsVal l := rfl

theorem digitsVal_append_last (l : List Char) (d : Char) :
    digitsVal (l ++ [d]) = digitsVal l * 10 + (d.toNat - 48) := by
  unfold digitsVal
  rw [List.foldl_append]
  rfl

theorem digitsVal_natDigits (n : Nat) : digitsVal (natDigits n) = n := by
  induction n using Nat.strong_induction_on with
  | _ n ih =>
    by_cases h10 : n < 10
    · unfold natDigits natDigitsAux
      simp only [h10, if_true]
      show digitsVal [Char.ofNat (48 + n)] = n
      unfold digitsVal
      simp [toNat_digitChar n h10]
    · unfold natDigits
      unfold natDigitsAux
      simp only [h10, if_false]
      rw [natDigitsAux_fuel (n / 10) n (Nat.div_lt_self (by omega) (by omega)),
        digitsVal_append_last, ih (n / 10) (Nat.div_lt_self (by omega) (by omega)),
        toNat_digitChar (n % 10) (Nat.mod_lt _ (by omega))]
      omega

theorem natDigits_ne_nil (n : Nat) : natDigits n ≠ [] := by
  unfold natDigits
  unfold natDigitsAux
  by_cases h10 : n < 10 <;> simp [h10]

theorem natDigits_all_dig (n : Nat) : ∀ c ∈ natDigits n, isDig c = true := by
  induction n using Nat.strong_induction_on with
  | _ n ih =>
    intro c hc
    by_cases h10 : n < 10
    · unfold natDigits natDigitsAux at hc
      simp only [h10, if_true, List.mem_singleton] at hc
      exact hc ▸ isDig_digitChar n h10
    · unfold natDigits at hc
      unfold natDigitsAux at hc
      simp only [h10, if_false, List.mem_append, List.mem_singleton] at hc
      rcases hc with hc | rfl
      · rw [natDigitsAux_fuel (n / 10) n (Nat.div_lt_self (by omega) (by omega))] at hc
        exact ih (n / 10) (Nat.div_lt_self (by omega) (by omega)) c hc
      · exact isDig_digitChar (n % 10) (Nat.mod_lt _ (by omega))

/-- The safe alphabet of the amended round-trip claim: ASCII letters, digits,
and `.`, `/`, `_`, `-`. -/
def safeChar (c : Char) : Bool :=
  isDig c || (65 ≤ c.toNat && c.toNat ≤ 90) || (97 ≤ c.toNat && c.toNat ≤ 122) ||
    c == '.' || c == '/' || c == '_' || c == '-'

theorem isDig_iff (c : Char) : isDig c = true ↔ 48 ≤ c.toNat ∧ c.toNat ≤ 57 := by
  simp [isDig]

theorem safe_toNat (c : Char) (h : safeChar c = true) :
    (48 ≤ c.toNat ∧ c.toNat ≤ 57) ∨ (65 ≤ c.toNat ∧ c.toNat ≤ 90) ∨
      (97 ≤ c.toNat ∧ c.toNat ≤ 122) ∨ c.toNat = 46 ∨ c.toNat = 47 ∨
      c.toNat = 95 ∨ c.toNat = 45 := by
  simp only [safeChar, isDig, Bool.or_eq_true, Bool.and_eq_true,
    decide_eq_true_eq, beq_iff_eq] at h
  rcases h with ((((((h | h) | h) | rfl) | rfl) | rfl) | rfl)
  · exact Or.inl h
  · exact Or.inr (Or.inl h)
  · exact Or.inr (Or.inr (Or.inl h))
  · simp
  · simp
  · simp
  · simp

theorem isJsWs_iff (c : Char) : isJsWs c = true ↔
    (c.toNat = 9 ∨ c.toNat = 10 ∨ c.toNat = 11 ∨ c.toNat = 12 ∨ c.toNat = 13 ∨
     c.toNat = 32 ∨ c.toNat = 160 ∨ c.toNat = 0x1680 ∨
     (0x2000 ≤ c.toNat ∧ c.toNat ≤ 0x200a) ∨ c.toNat = 0x2028 ∨
     c.toNat = 0x2029 ∨ c.toNat = 0x202f ∨ c.toNat = 0x205f ∨
     c.toNat = 0x3000 ∨ c.toNat = 0xfeff) := by
  simp only [isJsWs, Bool.or_eq_true, Bool.and_eq_true, beq_iff_eq,
    decide_eq_true_eq]
  tauto

theorem safe_notWs (c : Char) (h : safeChar c = true) : isJsWs c = false := by
  rw [← Bool.not_eq_true, isJsWs_iff]
  have := safe_toNat c h
  omega

theorem dig_notWs (c : Char) (h : isDig c = true) : isJsWs c = false := by
  rw [← Bool.not_eq_true, isJsWs_iff]
  have := (isDig_iff c).mp h
  omega

theorem beq_false_of_toNat_ne {c X : Char} (h : c.toNat ≠ X.toNat) :
    (c == X) = false := by
  refine beq_eq_false_iff_ne.mpr (fun e => h ?_)
  rw [e]

theorem safe_notQuote (c : Char) (h : safeChar c = true) : notQuote c = true := by
  have hv := safe_toNat c h
  simp only [notQuote, isQuote, Bool.not_eq_true', Bool.or_eq_false_iff]
  constructor
  · exact beq_false_of_toNat_ne (by rw [show ('"' : Char).toNat = 34 from rfl]; omega)
  · exact beq_false_of_toNat_ne (by rw [show squote.toNat = 39 from rfl]; omega)

theorem dig_notQuote (c : Char) (h : isDig c = true) : notQuote c = true := by
  have hv := (isDig_iff c).mp h
  simp only [notQuote, isQuote, Bool.not_eq_true', Bool.or_eq_false_iff]
  constructor
  · exact beq_false_of_toNat_ne (by rw [show ('"' : Char).toNat = 34 from rfl]; omega)
  · exact beq_false_of_toNat_ne (by rw [show squote.toNat = 39 from rfl]; omega)

theorem safe_ne_of_toNat (c : Char) (h : safeChar c = true) (X : Char)
    (hX : (X.toNat < 48 ∧ X.toNat ≠ 45 ∧ X.toNat ≠ 46 ∧ X.toNat ≠ 47) ∨
      (57 < X.toNat ∧ X.toNat < 65) ∨
      (90 < X.toNat ∧ X.toNat < 97 ∧ X.toNat ≠ 95) ∨
      122 < X.toNat) : (c == X) = false := by
  have hv := safe_toNat c h
  refine beq_false_of_toNat_ne ?_
  rcases hv with h1 | h1 | h1 | h1 | h1 | h1 | h1 <;>
    rcases hX with h2 | h2 | h2 | h2 <;> omega

theorem dig_beq_false (c : Char) (h : isDig c = true) (X : Char)
    (hX : X.toNat < 48 ∨ 57 < X.toNat) : (c == X) = false := by
  have hv := (isDig_iff c).mp h
  refine beq_false_of_toNat_ne ?_
  rcases hX with h2 | h2 <;> omega

theorem truthyNum_pos (n : Nat) (h : 0 < n) : truthyNum (some n) = some n := by
  cases n with
  | zero => omega
  | succ m => rfl

end ImageScaler

namespace ImageScaler

/-! ### Engine combinator lemmas -/

/-- The next character (if any) does not satisfy `p`: a maximal run ends
here. -/
def headNotSat (p : Char → Bool) : List Char → Prop
  | [] => True
  | c :: _ => p c = false

theorem run_seqList_cons (r : RE) (rs : List RE) (s : List Char) (caps : Caps)
    (k : List Char → Caps → Res) :
    run (seqList (r :: rs)) s caps k =
      run r s caps (fun t c => run (seqList rs) t c k) := rfl

theorem run_seqList_nil (s : List Char) (caps : Caps) (k : List Char → Caps → Res) :
    run (seqList []) s caps k = k s caps := rfl

theorem run_ch_cons (p : Char → Bool) (c : Char) (s : List Char) (caps : Caps)
    (k : List Char → Caps → Res) :
    run (.ch p) (c :: s) caps k = if p c then k s caps else none := rfl

theorem run_ch_nil (p : Char → Bool) (caps : Caps) (k : List Char → Caps → Res) :
    run (.ch p) [] caps k = none := rfl

theorem starGAux_zero (s : List Char) (caps : Caps) (k : List Char → Caps → Res) :
    starGAux s caps k 0 = k s caps := rfl

theorem starGAux_succ (s : List Char) (caps : Caps) (k : List Char → Caps → Res)
    (n : Nat) :
    starGAux s caps k (n + 1) =
      obOr (k (s.drop (n + 1)) caps) (starGAux s caps k n) := rfl

theorem run_starG_eq (p : Char → Bool) (s : List Char) (caps : Caps)
    (k : List Char → Caps → Res) :
    run (.starG p) s caps k = starGAux s caps k (countRun p s) := rfl

theorem starLAux_nil (p : Char → Bool) (caps : Caps) (k : List Char → Caps → Res) :
    starLAux p [] caps k = obOr (k [] caps) none := by
  conv_lhs => unfold starLAux

theorem starLAux_cons (p : Char → Bool) (c : Char) (s : List Char) (caps : Caps)
    (k : List Char → Caps → Res) :
    starLAux p (c :: s) caps k =
      obOr (k (c :: s) caps) (if p c then starLAux p s caps k else none) := by
  conv_lhs => unfold starLAux

theorem run_starL_eq (p : Char → Bool) (s : List Char) (caps : Caps)
    (k : List Char → Caps → Res) :
    run (.starL p) s caps k = starLAux p s caps k := rfl

theorem countRun_append {p : Char → Bool} {u v : List Char}
    (hu : ∀ c ∈ u, p c = true) (hv : headNotSat p v) :
    countRun p (u ++ v) = u.length := by
  induction u with
  | nil =>
    cases v with
    | nil => rfl
    | cons c t =>
      show countRun p (c :: t) = 0
      unfold countRun
      rw [if_neg (by simp [show p c = false from hv])]
  | cons c u' ih =>
    show countRun p (c :: (u' ++ v)) = u'.length + 1
    unfold countRun
    rw [if_pos (hu c (by simp)), ih (fun x hx => hu x (by simp [hx]))]

theorem ch_succ {p : Char → Bool} {c : Char} {s : List Char} {caps : Caps}
    {k : List Char → Caps → Res} {res : List Char × Caps}
    (h : p c = true) (hk : k s caps = some res) :
    run (.ch p) (c :: s) caps k = some res := by
  rw [run_ch_cons, if_pos h, hk]

theorem starG_max {p : Char → Bool} {u v : List Char} {caps : Caps}
    {k : List Char → Caps → Res} {res : List Char × Caps}
    (hu : ∀ c ∈ u, p c = true) (hv : headNotSat p v)
    (hk : k v caps = some res) :
    run (.starG p) (u ++ v) caps k = some res := by
  rw [run_starG_eq, countRun_append hu hv]
  cases u with
  | nil => simpa [starGAux_zero] using hk
  | cons c u' =>
    show starGAux ((c :: u') ++ v) caps k (u'.length + 1) = some res
    rw [starGAux_succ]
    have hd : ((c :: u') ++ v).drop (u'.length + 1) = v := by
      rw [show u'.length + 1 = (c :: u').length from rfl, List.drop_left]
    rw [hd, hk]
    rfl

theorem plus_max {p : Char → Bool} {u v : List Char} {caps : Caps}
    {k : List Char → Caps → Res} {res : List Char × Caps}
    (hne : u ≠ []) (hu : ∀ c ∈ u, p c = true) (hv : headNotSat p v)
    (hk : k v caps = some res) :
    run (plusCls p) (u ++ v) caps k = some res := by
  cases u with
  | nil => exact absurd rfl hne
  | cons c u' =>
    show run (.ch p) (c :: (u' ++ v)) caps
      (fun t c' => run (.starG p) t c' k) = some res
    exact ch_succ (hu c (by simp))
      (starG_max (fun x hx => hu x (by simp [hx])) hv hk)

theorem run_group_eq (i : Nat) (a : RE) (s : List Char) (caps : Caps)
    (k : List Char → Caps → Res) :
    run (.group i a) s caps k =
      run a s caps
        (fun t caps' => k t (setCap i (s.take (s.length - t.length)) caps')) := rfl

theorem take_sub_append (u v : List Char) :
    (u ++ v).take ((u ++ v).length - v.length) = u := by
  rw [List.length_append, Nat.add_sub_cancel, List.take_left]

theorem group_starG_max {i : Nat} {p : Char → Bool} {u v : List Char}
    {caps : Caps} {k : List Char → Caps → Res} {res : List Char × Caps}
    (hu : ∀ c ∈ u, p c = true) (hv : headNotSat p v)
    (hk : k v (setCap i u caps) = some res) :
    run (.group i (.starG p)) (u ++ v) caps k = some res := by
  rw [run_group_eq]
  exact starG_max hu hv (by rw [take_sub_append]; exact hk)

theorem group_plus_max {i : Nat} {p : Char → Bool} {u v : List Char}
    {caps : Caps} {k : List Char → Caps → Res} {res : List Char × Caps}
    (hne : u ≠ []) (hu : ∀ c ∈ u, p c = true) (hv : headNotSat p v)
    (hk : k v (setCap i u caps) = some res) :
    run (.group i (plusCls p)) (u ++ v) caps k = some res := by
  rw [run_group_eq]
  exact plus_max hne hu hv (by rw [take_sub_append]; exact hk)

theorem optG_hit {a : RE} {s : List Char} {caps : Caps}
    {k : List Char → Caps → Res} {res : List Char × Caps}
    (h : run a s caps k = some res) : run (.optG a) s caps k = some res := by
  show obOr (run a s caps k) (k s caps) = some res
  rw [h]
  rfl

theorem optG_miss {a : RE} {s : List Char} {caps : Caps}
    {k : List Char → Caps → Res}
    (h : run a s caps k = none) : run (.optG a) s caps k = k s caps := by
  show obOr (run a s caps k) (k s caps) = k s caps
  rw [h]
  rfl

theorem alt_left {a b : RE} {s : List Char} {caps : Caps}
    {k : List Char → Caps → Res} {res : List Char × Caps}
    (h : run a s caps k = some res) : run (.alt a b) s caps k = some res := by
  show obOr (run a s caps k) (run b s caps k) = some res
  rw [h]
  rfl

theorem alt_right {a b : RE} {s : List Char} {caps : Caps}
    {k : List Char → Caps → Res}
    (h : run a s caps k = none) : run (.alt a b) s caps k = run b s caps k := by
  show obOr (run a s caps k) (run b s caps k) = run b s caps k
  rw [h]
  rfl

theorem starL_first {p : Char → Bool} {s : List Char} {caps : Caps}
    {k : List Char → Caps → Res} {res : List Char × Caps}
    (h : k s caps = some res) : run (.starL p) s caps k = some res := by
  rw [run_starL_eq]
  cases s with
  | nil => rw [starLAux_nil, h]; rfl
  | cons c s' => rw [starLAux_cons, h]; rfl

theorem starLAux_none {p : Char → Bool} {s : List Char} {caps : Caps}
    {k : List Char → Caps → Res}
    (h : ∀ t, t <:+ s → k t caps = none) : starLAux p s caps k = none := by
  induction s with
  | nil => rw [starLAux_nil, h [] (List.suffix_refl _)]; rfl
  | cons c s' ih =>
    rw [starLAux_cons, h _ (List.suffix_refl _)]
    by_cases hp : p c = true
    · rw [if_pos hp, ih (fun t ht => h t (ht.trans (List.suffix_cons c s')))]
      rfl
    · rw [if_neg hp]
      rfl

theorem starL_none {p : Char → Bool} {s : List Char} {caps : Caps}
    {k : List Char → Caps → Res}
    (h : ∀ t, t <:+ s → k t caps = none) : run (.starL p) s caps k = none := by
  rw [run_starL_eq]
  exact starLAux_none h

theorem seqList_ch_fail {p : Char → Bool} {c : Char} {s : List Char}
    {rs : List RE} {caps : Caps} {k : List Char → Caps → Res}
    (h : p c = false) : run (seqList (.ch p :: rs)) (c :: s) caps k = none := by
  rw [run_seqList_cons, run_ch_cons, if_neg (by simp [h])]

theorem seqList_ch_nil {p : Char → Bool} {rs : List RE} {caps : Caps}
    {k : List Char → Caps → Res} :
    run (seqList (.ch p :: rs)) [] caps k = none := rfl

theorem suffix_append_cases {t u v : List Char} (h : t <:+ u ++ v) :
    t <:+ v ∨ ∃ u', u' <:+ u ∧ u' ≠ [] ∧ t = u' ++ v := by
  induction u with
  | nil => exact Or.inl (by simpa using h)
  | cons a u ih =>
    rcases List.suffix_cons_iff.mp h with rfl | h'
    · exact Or.inr ⟨a :: u, List.suffix_refl _, by simp, rfl⟩
    · rcases ih h' with h'' | ⟨u', hs, hne, rfl⟩
      · exact Or.inl h''
      · exact Or.inr ⟨u', hs.trans (List.suffix_cons a u), hne, rfl⟩

theorem suffix_all_cons {P : List Char → Prop} {c : Char} {v : List Char}
    (hc : P (c :: v)) (hv : ∀ t, t <:+ v → P t) :
    ∀ t, t <:+ c :: v → P t := by
  intro t ht
  rcases List.suffix_cons_iff.mp ht with rfl | h'
  · exact hc
  · exact hv t h'

theorem suffix_all_chunk {P : List Char → Prop} {q : Char → Bool}
    {u v : List Char}
    (hstep : ∀ c t, q c = false → P (c :: t))
    (hu : ∀ c ∈ u, q c = false) (hv : ∀ t, t <:+ v → P t) :
    ∀ t, t <:+ u ++ v → P t := by
  intro t ht
  rcases suffix_append_cases ht with h' | ⟨u', hs, hne, rfl⟩
  · exact hv t h'
  · cases u' with
    | nil => exact absurd rfl hne
    | cons c u'' => exact hstep c _ (hu c (hs.subset (by simp)))

theorem findAux_here {r : RE} {s t : List Char} {caps : Caps} {i : Nat}
    (h : run r s [] kInit = some (t, caps)) :
    findAux r s i = some (i, s.take (s.length - t.length), caps) := by
  cases s with
  | nil =>
    simp only [findAux, h]
    rfl
  | cons c s' => simp only [findAux, h]

theorem findAux_cons_fail {r : RE} {c : Char} {s : List Char} {i : Nat}
    (h : run r (c :: s) [] kInit = none) :
    findAux r (c :: s) i = findAux r s (i + 1) := by
  simp only [findAux, h]

theorem findAux_skip {r : RE} {u v : List Char}
    (h : ∀ c u', (c :: u') <:+ u → run r ((c :: u') ++ v) [] kInit = none) :
    ∀ i, findAux r (u ++ v) i = findAux r v (i + u.length) := by
  induction u with
  | nil => intro i; simp
  | cons a u ih =>
    intro i
    have h1 : run r (a :: (u ++ v)) [] kInit = none := by
      simpa using h a u (List.suffix_refl _)
    rw [List.cons_append, findAux_cons_fail h1,
      ih (fun c u' hs => h c u' (hs.trans (List.suffix_cons a u)))]
    congr 1
    simp only [List.length_cons]
    omega

end ImageScaler

namespace ImageScaler

/-! ### Markdown and Wikilink both need a `[`: they fail on bracket-free text -/

theorem findAux_bang_bracket_none {rest : List RE} {l : List Char}
    (h : ∀ c ∈ l, (c == '[') = false) :
    ∀ i, findAux (seqList (lit '!' :: lit '[' :: rest)) l i = none := by
  induction l with
  | nil => intro i; rfl
  | cons c t ih =>
    intro i
    have step : run (seqList (lit '!' :: lit '[' :: rest)) (c :: t) [] kInit =
        if c == '!' then run (seqList (lit '[' :: rest)) t [] kInit
        else none := rfl
    have hrun : run (seqList (lit '!' :: lit '[' :: rest)) (c :: t) [] kInit = none := by
      rw [step]
      by_cases hc : (c == '!') = true
      · rw [if_pos hc]
        cases t with
        | nil => exact seqList_ch_nil
        | cons d t' => exact seqList_ch_fail (h d (by simp))
      · rw [if_neg (by simp [Bool.not_eq_true] at hc ⊢; exact hc)]
    rw [findAux_cons_fail hrun]
    exact ih (fun x hx => h x (by simp [hx])) (i + 1)

theorem parseMarkdown_none_of_no_bracket (l : List Char)
    (h : ∀ c ∈ l, (c == '[') = false) : parseMarkdown ⟨l⟩ = none := by
  have hm : matchFirst markdownRegex ⟨l⟩ = none := findAux_bang_bracket_none h 0
  rw [parseMarkdown.eq_def, hm]

theorem parseWikilink_none_of_no_bracket (l : List Char)
    (h : ∀ c ∈ l, (c == '[') = false) : parseWikilink ⟨l⟩ = none := by
  have hm : matchFirst wikilinkRegex ⟨l⟩ = none := findAux_bang_bracket_none h 0
  rw [parseWikilink.eq_def, hm]

theorem parse_eq_parseHtml_of_no_bracket (l : List Char)
    (h : ∀ c ∈ l, (c == '[') = false) :
    parseImageSyntaxFromLine ⟨l⟩ = parseHtml ⟨l⟩ := by
  unfold parseImageSyntaxFromLine
  rw [parseMarkdown_none_of_no_bracket l h, parseWikilink_none_of_no_bracket l h]

end ImageScaler

namespace ImageScaler

/-! ### seqList-level stepping lemmas -/

theorem seqList_ch_succ {p : Char → Bool} {rs : List RE} {c : Char}
    {s : List Char} {caps : Caps} {k : List Char → Caps → Res}
    {res : List Char × Caps} (hc : p c = true)
    (h : run (seqList rs) s caps k = some res) :
    run (seqList (.ch p :: rs)) (c :: s) caps k = some res := by
  rw [run_seqList_cons]
  exact ch_succ hc h

theorem seqList_ch2_fail {p q : Char → Bool} {rs : List RE} {c d : Char}
    {s : List Char} {caps : Caps} {k : List Char → Caps → Res}
    (hc : p c = true) (hd : q d = false) :
    run (seqList (.ch p :: .ch q :: rs)) (c :: d :: s) caps k = none := by
  rw [run_seqList_cons, run_ch_cons, if_pos hc]
  exact seqList_ch_fail hd

theorem seqList_starG_max (u v : List Char) {p : Char → Bool} {rs : List RE}
    {caps : Caps} {k : List Char → Caps → Res} {res : List Char × Caps}
    (hu : ∀ c ∈ u, p c = true) (hv : headNotSat p v)
    (hk : run (seqList rs) v caps k = some res) :
    run (seqList (.starG p :: rs)) (u ++ v) caps k = some res := by
  rw [run_seqList_cons]
  exact starG_max hu hv hk

theorem seqList_plus_max (u v : List Char) {p : Char → Bool} {rs : List RE}
    {caps : Caps} {k : List Char → Caps → Res} {res : List Char × Caps}
    (hne : u ≠ []) (hu : ∀ c ∈ u, p c = true) (hv : headNotSat p v)
    (hk : run (seqList rs) v caps k = some res) :
    run (seqList (plusCls p :: rs)) (u ++ v) caps k = some res := by
  rw [run_seqList_cons]
  exact plus_max hne hu hv hk

theorem seqList_group_plus_max (u v : List Char) {i : Nat} {p : Char → Bool}
    {rs : List RE} {caps : Caps} {k : List Char → Caps → Res}
    {res : List Char × Caps}
    (hne : u ≠ []) (hu : ∀ c ∈ u, p c = true) (hv : headNotSat p v)
    (hk : run (seqList rs) v (setCap i u caps) k = some res) :
    run (seqList (.group i (plusCls p) :: rs)) (u ++ v) caps k = some res := by
  rw [run_seqList_cons]
  exact group_plus_max hne hu hv hk

theorem seqList_group_starG_max (u v : List Char) {i : Nat} {p : Char → Bool}
    {rs : List RE} {caps : Caps} {k : List Char → Caps → Res}
    {res : List Char × Caps}
    (hu : ∀ c ∈ u, p c = true) (hv : headNotSat p v)
    (hk : run (seqList rs) v (setCap i u caps) k = some res) :
    run (seqList (.group i (.starG p) :: rs)) (u ++ v) caps k = some res := by
  rw [run_seqList_cons]
  exact group_starG_max hu hv hk

theorem seqList_optG_hit {a : RE} {rs : List RE} {s : List Char} {caps : Caps}
    {k : List Char → Caps → Res} {res : List Char × Caps}
    (h : run a s caps (fun t c => run (seqList rs) t c k) = some res) :
    run (seqList (.optG a :: rs)) s caps k = some res := by
  rw [run_seqList_cons]
  exact optG_hit h

theorem seqList_optG_miss {a : RE} {rs : List RE} {s : List Char} {caps : Caps}
    {k : List Char → Caps → Res} {res : List Char × Caps}
    (h : run a s caps (fun t c => run (seqList rs) t c k) = none)
    (hk : run (seqList rs) s caps k = some res) :
    run (seqList (.optG a :: rs)) s caps k = some res := by
  rw [run_seqList_cons, optG_miss h]
  exact hk

theorem seqList_alt_left {a b : RE} {rs : List RE} {s : List Char} {caps : Caps}
    {k : List Char → Caps → Res} {res : List Char × Caps}
    (h : run a s caps (fun t c => run (seqList rs) t c k) = some res) :
    run (seqList (.alt a b :: rs)) s caps k = some res := by
  rw [run_seqList_cons]
  exact alt_left h

theorem seqList_starL_first {p : Char → Bool} {rs : List RE} {s : List Char}
    {caps : Caps} {k : List Char → Caps → Res} {res : List Char × Caps}
    (h : run (seqList rs) s caps k = some res) :
    run (seqList (.starL p :: rs)) s caps k = some res := by
  rw [run_seqList_cons]
  exact starL_first h

/-! ### The style string and the three scans -/

/-- The characters of the style string rendered with width `DW`, height `DH`
and zoom `DZ` (each a decimal digit string). -/
def styChars (DW DH DZ : List Char) : List Char :=
  'w' :: 'i' :: 'd' :: 't' :: 'h' :: ':' :: ' ' :: (DW ++ ('p' :: 'x' :: ';' :: ' ' ::
    ('h' :: 'e' :: 'i' :: 'g' :: 'h' :: 't' :: ':' :: ' ' :: (DH ++ ('p' :: 'x' :: ';' :: ' ' ::
      ('z' :: 'o' :: 'o' :: 'm' :: ':' :: ' ' :: (DZ ++ ('%' :: ';' ::[]))))))))

theorem headNotSat_ws_digits {u : List Char} (v : List Char) (hne : u ≠ [])
    (hd : ∀ c ∈ u, isDig c = true) : headNotSat isJsWs (u ++ v) := by
  cases u with
  | nil => exact absurd rfl hne
  | cons c u' => exact dig_notWs c (hd c (by simp))

theorem dig_ci_fail (c₀ : Char) (d : Char) (hd : isDig d = true)
    (hlo : c₀.toNat < 48 ∨ 57 < c₀.toNat)
    (hsw : (asciiSwapCase c₀).toNat < 48 ∨ 57 < (asciiSwapCase c₀).toNat) :
    (d == c₀ || d == asciiSwapCase c₀) = false := by
  rw [dig_beq_false d hd c₀ hlo, dig_beq_false d hd _ hsw]
  rfl

theorem findAux_skip_digits {r : RE}
    (hr : ∀ (d : Char) (s : List Char), isDig d = true →
      run r (d :: s) [] kInit = none)
    {u : List Char} (hu : ∀ c ∈ u, isDig c = true) (v : List Char) :
    ∀ i, findAux r (u ++ v) i = findAux r v (i + u.length) := by
  induction u with
  | nil => intro i; simp
  | cons a u ih =>
    intro i
    rw [List.cons_append, findAux_cons_fail (hr a (u ++ v) (hu a (by simp))),
      ih (fun c hc => hu c (by simp [hc])) i.succ]
    congr 1
    simp only [List.length_cons]
    omega

theorem scan_width (DW DH DZ : List Char) (hW : DW ≠ [])
    (hWd : ∀ c ∈ DW, isDig c = true) :
    ∃ m, findAux widthRegex (styChars DW DH DZ) 0 =
      some (0, m, setCap 1 DW []) := by
  obtain ⟨t, ht⟩ : ∃ t, run widthRegex (styChars DW DH DZ) [] kInit =
      some (t, setCap 1 DW []) := by
    econstructor
    unfold styChars widthRegex
    refine seqList_ch_succ (by decide) ?_
    refine seqList_ch_succ (by decide) ?_
    refine seqList_ch_succ (by decide) ?_
    refine seqList_ch_succ (by decide) ?_
    refine seqList_ch_succ (by decide) ?_
    refine seqList_ch_succ (by decide) ?_
    refine seqList_starG_max [' '] _ (by decide)
      (headNotSat_ws_digits _ hW hWd) ?_
    refine seqList_group_plus_max DW _ hW hWd
      (show isDig 'p' = false by decide) ?_
    refine seqList_ch_succ (by decide) ?_
    refine seqList_ch_succ (by decide) ?_
    rfl
  exact ⟨_, findAux_here ht⟩

theorem scan_height (DW DH DZ : List Char) (hW : DW ≠ [])
    (hWd : ∀ c ∈ DW, isDig c = true) (hH : DH ≠ [])
    (hHd : ∀ c ∈ DH, isDig c = true) :
    ∃ i m, findAux heightRegex (styChars DW DH DZ) 0 =
      some (i, m, setCap 1 DH []) := by
  have hdigfail : ∀ (d : Char) (s : List Char), isDig d = true →
      run heightRegex (d :: s) [] kInit = none := by
    intro d s hd
    exact seqList_ch_fail (dig_ci_fail 'h' d hd (by decide) (by decide))
  have hf1 : ∀ (c : Char), ((c == 'h' || c == asciiSwapCase 'h') = false) →
      ∀ s, run heightRegex (c :: s) [] kInit = none :=
    fun c hc s => seqList_ch_fail hc
  have hf2 : ∀ s, run heightRegex ('h' :: ':' :: s) [] kInit = none :=
    fun s => seqList_ch2_fail (by decide) (by decide)
  obtain ⟨t, ht⟩ : ∃ t, run heightRegex ('h' :: 'e' :: 'i' :: 'g' :: 'h' :: 't' :: ':' :: ' ' ::
      (DH ++ ('p' :: 'x' :: ';' :: ' ' ::
        ('z' :: 'o' :: 'o' :: 'm' :: ':' :: ' ' :: (DZ ++ ('%' :: ';' ::[])))))) [] kInit =
      some (t, setCap 1 DH []) := by
    econstructor
    unfold heightRegex
    refine seqList_ch_succ (by decide) ?_
    refine seqList_ch_succ (by decide) ?_
    refine seqList_ch_succ (by decide) ?_
    refine seqList_ch_succ (by decide) ?_
    refine seqList_ch_succ (by decide) ?_
    refine seqList_ch_succ (by decide) ?_
    refine seqList_ch_succ (by decide) ?_
    refine seqList_starG_max [' '] _ (by decide)
      (headNotSat_ws_digits _ hH hHd) ?_
    refine seqList_group_plus_max DH _ hH hHd
      (show isDig 'p' = false by decide) ?_
    refine seqList_ch_succ (by decide) ?_
    refine seqList_ch_succ (by decide) ?_
    rfl
  unfold styChars
  rw [findAux_cons_fail (hf1 'w' (by decide) _)]
  rw [findAux_cons_fail (hf1 'i' (by decide) _)]
  rw [findAux_cons_fail (hf1 'd' (by decide) _)]
  rw [findAux_cons_fail (hf1 't' (by decide) _)]
  rw [findAux_cons_fail (hf2 _)]
  rw [findAux_cons_fail (hf1 ':' (by decide) _)]
  rw [findAux_cons_fail (hf1 ' ' (by decide) _)]
  rw [findAux_skip_digits hdigfail hWd _]
  rw [findAux_cons_fail (hf1 'p' (by decide) _)]
  rw [findAux_cons_fail (hf1 'x' (by decide) _)]
  rw [findAux_cons_fail (hf1 ';' (by decide) _)]
  rw [findAux_cons_fail (hf1 ' ' (by decide) _)]
  exact ⟨_, _, findAux_here ht⟩

theorem scan_zoom (DW DH DZ : List Char) (hW : DW ≠ [])
    (hWd : ∀ c ∈ DW, isDig c = true) (hH : DH ≠ [])
    (hHd : ∀ c ∈ DH, isDig c = true) (hZ : DZ ≠ [])
    (hZd : ∀ c ∈ DZ, isDig c = true) :
    ∃ i m, findAux zoomRegex (styChars DW DH DZ) 0 =
      some (i, m, setCap 1 DZ []) := by
  have hdigfail : ∀ (d : Char) (s : List Char), isDig d = true →
      run zoomRegex (d :: s) [] kInit = none := by
    intro d s hd
    exact seqList_ch_fail (dig_ci_fail 'z' d hd (by decide) (by decide))
  have hf1 : ∀ (c : Char), ((c == 'z' || c == asciiSwapCase 'z') = false) →
      ∀ s, run zoomRegex (c :: s) [] kInit = none :=
    fun c hc s => seqList_ch_fail hc
  obtain ⟨t, ht⟩ : ∃ t, run zoomRegex ('z' :: 'o' :: 'o' :: 'm' :: ':' :: ' ' ::
      (DZ ++ ('%' :: ';' ::[]))) [] kInit = some (t, setCap 1 DZ []) := by
    econstructor
    unfold zoomRegex
    refine seqList_ch_succ (by decide) ?_
    refine seqList_ch_succ (by decide) ?_
    refine seqList_ch_succ (by decide) ?_
    refine seqList_ch_succ (by decide) ?_
    refine seqList_ch_succ (by decide) ?_
    refine seqList_starG_max [' '] _ (by decide)
      (headNotSat_ws_digits _ hZ hZd) ?_
    refine seqList_group_plus_max DZ _ hZ hZd
      (show isDig '%' = false by decide) ?_
    refine seqList_optG_hit ?_
    refine ch_succ (by decide) ?_
    rfl
  unfold styChars
  rw [findAux_cons_fail (hf1 'w' (by decide) _)]
  rw [findAux_cons_fail (hf1 'i' (by decide) _)]
  rw [findAux_cons_fail (hf1 'd' (by decide) _)]
  rw [findAux_cons_fail (hf1 't' (by decide) _)]
  rw [findAux_cons_fail (hf1 'h' (by decide) _)]
  rw [findAux_cons_fail (hf1 ':' (by decide) _)]
  rw [findAux_cons_fail (hf1 ' ' (by decide) _)]
  rw [findAux_skip_digits hdigfail hWd _]
  rw [findAux_cons_fail (hf1 'p' (by decide) _)]
  rw [findAux_cons_fail (hf1 'x' (by decide) _)]
  rw [findAux_cons_fail (hf1 ';' (by decide) _)]
  rw [findAux_cons_fail (hf1 ' ' (by decide) _)]
  rw [findAux_cons_fail (hf1 'h' (by decide) _)]
  rw [findAux_cons_fail (hf1 'e' (by decide) _)]
  rw [findAux_cons_fail (hf1 'i' (by decide) _)]
  rw [findAux_cons_fail (hf1 'g' (by decide) _)]
  rw [findAux_cons_fail (hf1 'h' (by decide) _)]
  rw [findAux_cons_fail (hf1 't' (by decide) _)]
  rw [findAux_cons_fail (hf1 ':' (by decide) _)]
  rw [findAux_cons_fail (hf1 ' ' (by decide) _)]
  rw [findAux_skip_digits hdigfail hHd _]
  rw [findAux_cons_fail (hf1 'p' (by decide) _)]
  rw [findAux_cons_fail (hf1 'x' (by decide) _)]
  rw [findAux_cons_fail (hf1 ';' (by decide) _)]
  rw [findAux_cons_fail (hf1 ' ' (by decide) _)]
  exact ⟨_, _, findAux_here ht⟩

end ImageScaler

namespace ImageScaler

/-! ### Failure of the optional junk group `(?:[^>]*?\s+)?` on the rendered tag -/

theorem countRun_zero {p : Char → Bool} {s : List Char} (hs : headNotSat p s) :
    countRun p s = 0 := by
  cases s with
  | nil => rfl
  | cons c t =>
    show countRun p (c :: t) = 0
    unfold countRun
    rw [if_neg (by simp [show p c = false from hs])]

theorem plus_head_fail {p : Char → Bool} {c : Char} {s : List Char} {caps : Caps}
    {k : List Char → Caps → Res} (h : p c = false) :
    run (plusCls p) (c :: s) caps k = none := by
  show run (.ch p) (c :: s) caps (fun t c' => run (.starG p) t c' k) = none
  rw [run_ch_cons, if_neg (by simp [h])]

theorem plus_single_then {p : Char → Bool} {c : Char} {s : List Char} {caps : Caps}
    {k : List Char → Caps → Res} (hc : p c = true) (hs : headNotSat p s) :
    run (plusCls p) (c :: s) caps k = k s caps := by
  show run (.ch p) (c :: s) caps (fun t c' => run (.starG p) t c' k) = k s caps
  rw [run_ch_cons, if_pos hc]
  show run (.starG p) s caps k = k s caps
  rw [run_starG_eq, countRun_zero hs, starGAux_zero]

theorem seqList_plus_head_fail {p : Char → Bool} {rs : List RE} {c : Char}
    {s : List Char} {caps : Caps} {k : List Char → Caps → Res}
    (h : p c = false) :
    run (seqList (plusCls p :: rs)) (c :: s) caps k = none := by
  rw [run_seqList_cons]
  exact plus_head_fail h

theorem seqList_plus_nil {p : Char → Bool} {rs : List RE} {caps : Caps}
    {k : List Char → Caps → Res} :
    run (seqList (plusCls p :: rs)) [] caps k = none := rfl

theorem junk_ws_step {c d : Char} {s' : List Char} {caps : Caps}
    {KK : List Char → Caps → Res} (hc : isJsWs c = true)
    (hd : isJsWs d = false) :
    run (seqList [plusWs]) (c :: d :: s') caps KK = KK (d :: s') caps := by
  rw [run_seqList_cons, show plusWs = plusCls isJsWs from rfl,
    plus_single_then hc (show headNotSat isJsWs (d :: s') from hd)]
  rfl

theorem junk_group_fail (RS : List RE) (kk : List Char → Caps → Res) (caps : Caps)
    (P E DW DH DZ : List Char)
    (hPs : ∀ c ∈ P, safeChar c = true) (hEs : ∀ c ∈ E, safeChar c = true)
    (hWne : DW ≠ []) (hWd : ∀ c ∈ DW, isDig c = true)
    (hHne : DH ≠ []) (hHd : ∀ c ∈ DH, isDig c = true)
    (hZne : DZ ≠ []) (hZd : ∀ c ∈ DZ, isDig c = true) :
    run (seqList [.starL notGt, plusWs])
      ('s' :: 'r' :: 'c' :: '=' :: '"' :: (P ++ ('"' :: ' ' :: 'a' :: 'l' :: 't' :: '=' :: '"' ::
        (E ++ ('"' :: ' ' :: 's' :: 't' :: 'y' :: 'l' :: 'e' :: '=' :: '"' ::
          (styChars DW DH DZ ++ ('"' :: '>' ::[])))))))
      caps
      (fun t c => run (seqList (ci 's' :: ci 'r' :: ci 'c' :: lit '=' :: RS)) t c kk)
      = none := by
  rw [run_seqList_cons]
  apply starL_none
  show ∀ t, t <:+ ('s' :: 'r' :: 'c' :: '=' :: '"' :: (P ++ ('"' :: ' ' :: 'a' :: 'l' :: 't' :: '=' :: '"' ::
      (E ++ ('"' :: ' ' :: 's' :: 't' :: 'y' :: 'l' :: 'e' :: '=' :: '"' ::
        (styChars DW DH DZ ++ ('"' :: '>' ::[]))))))) →
    run (seqList [plusWs]) t caps
      (fun t c => run (seqList (ci 's' :: ci 'r' :: ci 'c' :: lit '=' :: RS)) t c kk)
      = none
  refine suffix_all_cons (seqList_plus_head_fail (by decide)) ?_
  refine suffix_all_cons (seqList_plus_head_fail (by decide)) ?_
  refine suffix_all_cons (seqList_plus_head_fail (by decide)) ?_
  refine suffix_all_cons (seqList_plus_head_fail (by decide)) ?_
  refine suffix_all_cons (seqList_plus_head_fail (by decide)) ?_
  refine suffix_all_chunk (fun c t hq => seqList_plus_head_fail hq)
    (fun c hc => safe_notWs c (hPs c hc)) ?_
  refine suffix_all_cons (seqList_plus_head_fail (by decide)) ?_
  refine suffix_all_cons ?_ ?_
  · rw [junk_ws_step (by decide) (by decide)]
    exact seqList_ch_fail (by decide)
  refine suffix_all_cons (seqList_plus_head_fail (by decide)) ?_
  refine suffix_all_cons (seqList_plus_head_fail (by decide)) ?_
  refine suffix_all_cons (seqList_plus_head_fail (by decide)) ?_
  refine suffix_all_cons (seqList_plus_head_fail (by decide)) ?_
  refine suffix_all_cons (seqList_plus_head_fail (by decide)) ?_
  refine suffix_all_chunk (fun c t hq => seqList_plus_head_fail hq)
    (fun c hc => safe_notWs c (hEs c hc)) ?_
  refine suffix_all_cons (seqList_plus_head_fail (by decide)) ?_
  refine suffix_all_cons ?_ ?_
  · rw [junk_ws_step (by decide) (by decide)]
    exact seqList_ch2_fail (by decide) (by decide)
  refine suffix_all_cons (seqList_plus_head_fail (by decide)) ?_
  refine suffix_all_cons (seqList_plus_head_fail (by decide)) ?_
  refine suffix_all_cons (seqList_plus_head_fail (by decide)) ?_
  refine suffix_all_cons (seqList_plus_head_fail (by decide)) ?_
  refine suffix_all_cons (seqList_plus_head_fail (by decide)) ?_
  refine suffix_all_cons (seqList_plus_head_fail (by decide)) ?_
  refine suffix_all_cons (seqList_plus_head_fail (by decide)) ?_
  unfold styChars
  simp only [List.cons_append, List.append_assoc]
  refine suffix_all_cons (seqList_plus_head_fail (by decide)) ?_
  refine suffix_all_cons (seqList_plus_head_fail (by decide)) ?_
  refine suffix_all_cons (seqList_plus_head_fail (by decide)) ?_
  refine suffix_all_cons (seqList_plus_head_fail (by decide)) ?_
  refine suffix_all_cons (seqList_plus_head_fail (by decide)) ?_
  refine suffix_all_cons (seqList_plus_head_fail (by decide)) ?_
  refine suffix_all_cons ?_ ?_
  · cases DW with
    | nil => exact absurd rfl hWne
    | cons d dtl =>
      rw [List.cons_append,
        junk_ws_step (by decide) (dig_notWs d (hWd d (by simp)))]
      exact seqList_ch_fail (dig_ci_fail 's' d (hWd d (by simp)) (by decide) (by decide))
  refine suffix_all_chunk (fun c t hq => seqList_plus_head_fail hq)
    (fun c hc => dig_notWs c (hWd c hc)) ?_
  refine suffix_all_cons (seqList_plus_head_fail (by decide)) ?_
  refine suffix_all_cons (seqList_plus_head_fail (by decide)) ?_
  refine suffix_all_cons (seqList_plus_head_fail (by decide)) ?_
  refine suffix_all_cons ?_ ?_
  · rw [junk_ws_step (by decide) (by decide)]
    exact seqList_ch_fail (by decide)
  refine suffix_all_cons (seqList_plus_head_fail (by decide)) ?_
  refine suffix_all_cons (seqList_plus_head_fail (by decide)) ?_
  refine suffix_all_cons (seqList_plus_head_fail (by decide)) ?_
  refine suffix_all_cons (seqList_plus_head_fail (by decide)) ?_
  refine suffix_all_cons (seqList_plus_head_fail (by decide)) ?_
  refine suffix_all_cons (seqList_plus_head_fail (by decide)) ?_
  refine suffix_all_cons (seqList_plus_head_fail (by decide)) ?_
  refine suffix_all_cons ?_ ?_
  · cases DH with
    | nil => exact absurd rfl hHne
    | cons d dtl =>
      rw [List.cons_append,
        junk_ws_step (by decide) (dig_notWs d (hHd d (by simp)))]
      exact seqList_ch_fail (dig_ci_fail 's' d (hHd d (by simp)) (by decide) (by decide))
  refine suffix_all_chunk (fun c t hq => seqList_plus_head_fail hq)
    (fun c hc => dig_notWs c (hHd c hc)) ?_
  refine suffix_all_cons (seqList_plus_head_fail (by decide)) ?_
  refine suffix_all_cons (seqList_plus_head_fail (by decide)) ?_
  refine suffix_all_cons (seqList_plus_head_fail (by decide)) ?_
  refine suffix_all_cons ?_ ?_
  · rw [junk_ws_step (by decide) (by decide)]
    exact seqList_ch_fail (by decide)
  refine suffix_all_cons (seqList_plus_head_fail (by decide)) ?_
  refine suffix_all_cons (seqList_plus_head_fail (by decide)) ?_
  refine suffix_all_cons (seqList_plus_head_fail (by decide)) ?_
  refine suffix_all_cons (seqList_plus_head_fail (by decide)) ?_
  refine suffix_all_cons (seqList_plus_head_fail (by decide)) ?_
  refine suffix_all_cons ?_ ?_
  · cases DZ with
    | nil => exact absurd rfl hZne
    | cons d dtl =>
      rw [List.cons_append,
        junk_ws_step (by decide) (dig_notWs d (hZd d (by simp)))]
      exact seqList_ch_fail (dig_ci_fail 's' d (hZd d (by simp)) (by decide) (by decide))
  refine suffix_all_chunk (fun c t hq => seqList_plus_head_fail hq)
    (fun c hc => dig_notWs c (hZd c hc)) ?_
  refine suffix_all_cons (seqList_plus_head_fail (by decide)) ?_
  refine suffix_all_cons (seqList_plus_head_fail (by decide)) ?_
  refine suffix_all_cons (seqList_plus_head_fail (by decide)) ?_
  refine suffix_all_cons (seqList_plus_head_fail (by decide)) ?_
  intro t ht
  obtain rfl := List.suffix_nil.mp ht
  exact seqList_plus_nil

end ImageScaler

namespace ImageScaler

/-! ### The rendered tag and the full HTML-regex match -/

/-- The characters of the tag rendered from safe path `P`, safe (already
escaped-invariant) alt `E`, and digit strings `DW`, `DH`, `DZ`. -/
def tagChars (P E DW DH DZ : List Char) : List Char :=
  '<' :: 'i' :: 'm' :: 'g' :: ' ' :: 's' :: 'r' :: 'c' :: '=' :: '"' :: (P ++ ('"' :: ' ' :: 'a' :: 'l' :: 't' :: '=' :: '"' ::
    (E ++ ('"' :: ' ' :: 's' :: 't' :: 'y' :: 'l' :: 'e' :: '=' :: '"' ::
      (styChars DW DH DZ ++ ('"' :: '>' ::[]))))))

theorem run_seqList_nil_cont {s : List Char} {caps : Caps}
    {k : List Char → Caps → Res} {res : List Char × Caps}
    (h : k s caps = some res) : run (seqList []) s caps k = some res := h

theorem styChars_ne_nil (DW DH DZ : List Char) : styChars DW DH DZ ≠ [] := by
  unfold styChars
  simp

theorem styChars_all_notQuote (DW DH DZ : List Char)
    (hWd : ∀ c ∈ DW, isDig c = true) (hHd : ∀ c ∈ DH, isDig c = true)
    (hZd : ∀ c ∈ DZ, isDig c = true) :
    ∀ c ∈ styChars DW DH DZ, notQuote c = true := by
  unfold styChars
  simp only [List.forall_mem_cons, List.forall_mem_append]
  repeat' apply And.intro
  all_goals first
    | decide
    | exact fun c hc => dig_notQuote c (hWd c hc)
    | exact fun c hc => dig_notQuote c (hHd c hc)
    | exact fun c hc => dig_notQuote c (hZd c hc)

theorem tagChars_no_bracket (P E DW DH DZ : List Char)
    (hPs : ∀ c ∈ P, safeChar c = true) (hEs : ∀ c ∈ E, safeChar c = true)
    (hWd : ∀ c ∈ DW, isDig c = true) (hHd : ∀ c ∈ DH, isDig c = true)
    (hZd : ∀ c ∈ DZ, isDig c = true) :
    ∀ c ∈ tagChars P E DW DH DZ, (c == '[') = false := by
  unfold tagChars styChars
  simp only [List.forall_mem_cons, List.forall_mem_append]
  repeat' apply And.intro
  all_goals first
    | decide
    | exact fun c hc => safe_ne_of_toNat c (hPs c hc) '[' (by decide)
    | exact fun c hc => safe_ne_of_toNat c (hEs c hc) '[' (by decide)
    | exact fun c hc => dig_beq_false c (hWd c hc) '[' (by decide)
    | exact fun c hc => dig_beq_false c (hHd c hc) '[' (by decide)
    | exact fun c hc => dig_beq_false c (hZd c hc) '[' (by decide)

theorem html_run (P E DW DH DZ : List Char)
    (hPne : P ≠ []) (hPs : ∀ c ∈ P, safeChar c = true)
    (hEs : ∀ c ∈ E, safeChar c = true)
    (hWne : DW ≠ []) (hWd : ∀ c ∈ DW, isDig c = true)
    (hHne : DH ≠ []) (hHd : ∀ c ∈ DH, isDig c = true)
    (hZne : DZ ≠ []) (hZd : ∀ c ∈ DZ, isDig c = true) :
    run htmlImgRegex (tagChars P E DW DH DZ) [] kInit =
      some ([], setCap 1 (tagChars P E DW DH DZ)
        (setCap 6 (styChars DW DH DZ) (setCap 4 E (setCap 2 P [])))) := by
  unfold htmlImgRegex tagChars
  rw [run_group_eq]
  refine seqList_ch_succ (by decide) ?_
  refine seqList_ch_succ (by decide) ?_
  refine seqList_ch_succ (by decide) ?_
  refine seqList_ch_succ (by decide) ?_
  refine seqList_plus_max [' '] _ (by decide) (by decide) ?_ ?_
  · show isJsWs 's' = false
    decide
  refine seqList_optG_miss ?_ ?_
  · exact junk_group_fail _ _ _ P E DW DH DZ hPs hEs hWne hWd hHne hHd hZne hZd
  refine seqList_ch_succ (by decide) ?_
  refine seqList_ch_succ (by decide) ?_
  refine seqList_ch_succ (by decide) ?_
  refine seqList_ch_succ (by decide) ?_
  refine seqList_alt_left ?_
  refine seqList_ch_succ (by decide) ?_
  refine seqList_group_plus_max P _ hPne ?_ ?_ ?_
  · exact fun c hc => safe_notQuote c (hPs c hc)
  · show notQuote '"' = false
    decide
  refine seqList_ch_succ (by decide) ?_
  refine run_seqList_nil_cont ?_
  refine seqList_optG_hit ?_
  refine seqList_plus_max [' '] _ (by decide) (by decide) ?_ ?_
  · show isJsWs 'a' = false
    decide
  refine seqList_starL_first ?_
  refine seqList_starG_max [] _ (by simp) ?_ ?_
  · show isJsWs 'a' = false
    decide
  refine seqList_ch_succ (by decide) ?_
  refine seqList_ch_succ (by decide) ?_
  refine seqList_ch_succ (by decide) ?_
  refine seqList_ch_succ (by decide) ?_
  refine seqList_alt_left ?_
  refine seqList_ch_succ (by decide) ?_
  refine seqList_group_starG_max E _ ?_ ?_ ?_
  · exact fun c hc => safe_notQuote c (hEs c hc)
  · show notQuote '"' = false
    decide
  refine seqList_ch_succ (by decide) ?_
  refine run_seqList_nil_cont ?_
  refine run_seqList_nil_cont ?_
  refine seqList_optG_hit ?_
  refine seqList_plus_max [' '] _ (by decide) (by decide) ?_ ?_
  · show isJsWs 's' = false
    decide
  refine seqList_starL_first ?_
  refine seqList_starG_max [] _ (by simp) ?_ ?_
  · show isJsWs 's' = false
    decide
  refine seqList_ch_succ (by decide) ?_
  refine seqList_ch_succ (by decide) ?_
  refine seqList_ch_succ (by decide) ?_
  refine seqList_ch_succ (by decide) ?_
  refine seqList_ch_succ (by decide) ?_
  refine seqList_ch_succ (by decide) ?_
  refine seqList_alt_left ?_
  refine seqList_ch_succ (by decide) ?_
  refine seqList_group_plus_max (styChars DW DH DZ) _ (styChars_ne_nil DW DH DZ)
    (styChars_all_notQuote DW DH DZ hWd hHd hZd) ?_ ?_
  · show notQuote '"' = false
    decide
  refine seqList_ch_succ (by decide) ?_
  refine run_seqList_nil_cont ?_
  refine run_seqList_nil_cont ?_
  refine seqList_starL_first ?_
  refine seqList_ch_succ (by decide) ?_
  refine run_seqList_nil_cont ?_
  simp only [kInit, List.length_nil, Nat.sub_zero, List.take_length]

end ImageScaler

namespace ImageScaler

/-! ### The rendered tag's characters -/

theorem dropWhile_eq_self_of_headq {p : Char → Bool} {l : List Char}
    (h : ∀ c ∈ l.head?, p c = false) : l.dropWhile p = l := by
  cases l with
  | nil => rfl
  | cons c t =>
    rw [List.dropWhile_cons, if_neg (by simp [h c (by simp)])]

theorem jsTrim_eq_self_of_ends {l : List Char}
    (h1 : ∀ c ∈ l.head?, isJsWs c = false)
    (h2 : ∀ c ∈ l.getLast?, isJsWs c = false) : jsTrim l = l := by
  unfold jsTrim
  rw [dropWhile_eq_self_of_headq h1,
    dropWhile_eq_self_of_headq (by rw [List.head?_reverse]; exact h2),
    List.reverse_reverse]

theorem styChars_getLast (DW DH DZ : List Char) :
    (styChars DW DH DZ).getLast? = some ';' := by
  rw [← List.head?_reverse]
  unfold styChars
  simp

theorem jsTrim_styChars (DW DH DZ : List Char) :
    jsTrim (styChars DW DH DZ) = styChars DW DH DZ := by
  refine jsTrim_eq_self_of_ends ?_ ?_
  · intro c hc
    rw [show (styChars DW DH DZ).head? = some 'w' from by unfold styChars; rfl] at hc
    simp only [Option.mem_def, Option.some.injEq] at hc
    subst hc
    decide
  · intro c hc
    rw [styChars_getLast] at hc
    simp only [Option.mem_def, Option.some.injEq] at hc
    subst hc
    decide

theorem flatMap_keep_of_ne (t : Char) (rep : List Char) (l : List Char)
    (h : ∀ c ∈ l, (c == t) = false) :
    (l.flatMap fun c => if c == t then rep else [c]) = l := by
  induction l with
  | nil => rfl
  | cons c l ih =>
    rw [List.flatMap_cons, if_neg (by simpa using h c (by simp)),
      ih (fun x hx => h x (by simp [hx]))]
    rfl

theorem replaceAllChar_id {t : Char} {rep s : String}
    (h : ∀ c ∈ s.data, (c == t) = false) : replaceAllChar t rep s = s := by
  unfold replaceAllChar
  exact congrArg String.mk (flatMap_keep_of_ne t rep.data s.data h)

theorem escapeHtml_safe (a : String) (has : ∀ c ∈ a.data, safeChar c = true) :
    escapeHtml a = a := by
  unfold escapeHtml
  rw [replaceAllChar_id (fun c hc => safe_ne_of_toNat c (has c hc) '&' (by decide)),
    replaceAllChar_id (fun c hc => safe_ne_of_toNat c (has c hc) '<' (by decide)),
    replaceAllChar_id (fun c hc => safe_ne_of_toNat c (has c hc) '>' (by decide)),
    replaceAllChar_id (fun c hc => safe_ne_of_toNat c (has c hc) '"' (by decide)),
    replaceAllChar_id (fun c hc => safe_ne_of_toNat c (has c hc) squote (by decide))]

theorem renderImgTag_data (p a : String) (W H Z : Nat)
    (has : ∀ c ∈ a.data, safeChar c = true) (hW : 0 < W) (hH : 0 < H) :
    (renderImgTag p (some a) (some W) (some H) Z).data =
      tagChars p.data a.data (natDigits W) (natDigits H) (natDigits Z) := by
  unfold renderImgTag
  rw [truthyNum_pos W hW, truthyNum_pos H hH]
  have hsty : ("width: " ++ natToStr W ++ "px; " ++ ("height: " ++ natToStr H ++ "px; ") ++
      ("zoom: " ++ natToStr Z ++ "%;")).data =
      styChars (natDigits W) (natDigits H) (natDigits Z) := by
    simp only [String.data_append,
      show (natToStr W).data = natDigits W from rfl,
      show (natToStr H).data = natDigits H from rfl,
      show (natToStr Z).data = natDigits Z from rfl,
      show ("width: " : String).data = ['w','i','d','t','h',':',' '] from rfl,
      show ("px; " : String).data = ['p','x',';',' '] from rfl,
      show ("height: " : String).data = ['h','e','i','g','h','t',':',' '] from rfl,
      show ("zoom: " : String).data = ['z','o','o','m',':',' '] from rfl,
      show ("%;" : String).data = ['%',';'] from rfl]
    unfold styChars
    simp [List.append_assoc]
  have halt : (match jsTruthy (some a) with
      | some x => escapeHtml x
      | none => "").data = a.data := by
    show (match (if a.isEmpty = true then none else some a : Option String) with
      | some x => escapeHtml x
      | none => "").data = a.data
    by_cases he : a.isEmpty = true
    · rw [if_pos he]
      obtain rfl := (String.isEmpty_iff a).mp he
      rfl
    · rw [if_neg he]
      show (escapeHtml a).data = a.data
      rw [escapeHtml_safe a has]
  have htrim : (jsTrimStr ("width: " ++ natToStr W ++ "px; " ++
      ("height: " ++ natToStr H ++ "px; ") ++ ("zoom: " ++ natToStr Z ++ "%;"))).data =
      styChars (natDigits W) (natDigits H) (natDigits Z) := by
    show jsTrim _ = _
    rw [hsty, jsTrim_styChars]
  simp only [String.data_append, htrim, halt,
    show ("<img src=\"" : String).data =
      ['<','i','m','g',' ','s','r','c','=','"'] from rfl,
    show ("\" alt=\"" : String).data = ['"',' ','a','l','t','=','"'] from rfl,
    show ("\" style=\"" : String).data = ['"',' ','s','t','y','l','e','=','"'] from rfl,
    show ("\">" : String).data = ['"','>'] from rfl]
  unfold tagChars
  simp [List.append_assoc]

end ImageScaler

namespace ImageScaler

/-! ### Assembling `parseHtml` on the rendered tag -/

theorem jsTruthy_some_ne {s : String} (h : s.isEmpty = false) :
    jsTruthy (some s) = some s := by
  unfold jsTruthy
  simp [h]

theorem jsOr_some_ne {s : String} (b : Option String) (h : s.isEmpty = false) :
    jsOr (some s) b = some s := by
  unfold jsOr
  rw [jsTruthy_some_ne h]

theorem parseHtml_tag (P E DW DH DZ : List Char)
    (hPne : P ≠ []) (hPs : ∀ c ∈ P, safeChar c = true)
    (hEs : ∀ c ∈ E, safeChar c = true)
    (hWne : DW ≠ []) (hWd : ∀ c ∈ DW, isDig c = true)
    (hHne : DH ≠ []) (hHd : ∀ c ∈ DH, isDig c = true)
    (hZne : DZ ≠ []) (hZd : ∀ c ∈ DZ, isDig c = true) :
    ∃ alt, parseHtml ⟨tagChars P E DW DH DZ⟩ =
      some { path := ⟨P⟩, altText := alt,
             specifiedWidth := some (digitsVal DW),
             specifiedHeight := some (digitsVal DH),
             originalMatch := ⟨tagChars P E DW DH DZ⟩,
             startIndexInLine := 0, isHtml := true,
             currentZoomPercent := some (digitsVal DZ) } := by
  have hmf : matchFirst htmlImgRegex ⟨tagChars P E DW DH DZ⟩ =
      some (0, tagChars P E DW DH DZ,
        setCap 1 (tagChars P E DW DH DZ)
          (setCap 6 (styChars DW DH DZ) (setCap 4 E (setCap 2 P [])))) := by
    show findAux htmlImgRegex (tagChars P E DW DH DZ) 0 = _
    rw [findAux_here (html_run P E DW DH DZ hPne hPs hEs hWne hWd hHne hHd hZne hZd)]
    simp only [List.length_nil, Nat.sub_zero, List.take_length]
  have hg2 : getCap (setCap 1 (tagChars P E DW DH DZ)
      (setCap 6 (styChars DW DH DZ) (setCap 4 E (setCap 2 P [])))) 2 = some P := rfl
  have hg3 : getCap (setCap 1 (tagChars P E DW DH DZ)
      (setCap 6 (styChars DW DH DZ) (setCap 4 E (setCap 2 P [])))) 3 = none := rfl
  have hg4 : getCap (setCap 1 (tagChars P E DW DH DZ)
      (setCap 6 (styChars DW DH DZ) (setCap 4 E (setCap 2 P [])))) 4 = some E := rfl
  have hg5 : getCap (setCap 1 (tagChars P E DW DH DZ)
      (setCap 6 (styChars DW DH DZ) (setCap 4 E (setCap 2 P [])))) 5 = none := rfl
  have hg6 : getCap (setCap 1 (tagChars P E DW DH DZ)
      (setCap 6 (styChars DW DH DZ) (setCap 4 E (setCap 2 P [])))) 6 =
      some (styChars DW DH DZ) := rfl
  have hg7 : getCap (setCap 1 (tagChars P E DW DH DZ)
      (setCap 6 (styChars DW DH DZ) (setCap 4 E (setCap 2 P [])))) 7 = none := rfl
  obtain ⟨mw, hw⟩ := scan_width DW DH DZ hWne hWd
  obtain ⟨ihh, mh, hh⟩ := scan_height DW DH DZ hWne hWd hHne hHd
  obtain ⟨izz, mz, hz⟩ := scan_zoom DW DH DZ hWne hWd hHne hHd hZne hZd
  have hw' : matchFirst widthRegex ⟨styChars DW DH DZ⟩ =
      some (0, mw, setCap 1 DW []) := hw
  have hh' : matchFirst heightRegex ⟨styChars DW DH DZ⟩ =
      some (ihh, mh, setCap 1 DH []) := hh
  have hz' : matchFirst zoomRegex ⟨styChars DW DH DZ⟩ =
      some (izz, mz, setCap 1 DZ []) := hz
  have hPempty : (⟨P⟩ : String).isEmpty = false := by
    rw [isEmpty_mk]
    cases P with
    | nil => exact absurd rfl hPne
    | cons c t => rfl
  have hSempty : (⟨styChars DW DH DZ⟩ : String).isEmpty = false := by
    rw [isEmpty_mk]
    unfold styChars
    rfl
  have hWempty : (⟨DW⟩ : String).isEmpty = false := by
    rw [isEmpty_mk]
    cases DW with
    | nil => exact absurd rfl hWne
    | cons c t => rfl
  have hHempty : (⟨DH⟩ : String).isEmpty = false := by
    rw [isEmpty_mk]
    cases DH with
    | nil => exact absurd rfl hHne
    | cons c t => rfl
  have hZempty : (⟨DZ⟩ : String).isEmpty = false := by
    rw [isEmpty_mk]
    cases DZ with
    | nil => exact absurd rfl hZne
    | cons c t => rfl
  have hgw : getCap (setCap 1 DW []) 1 = some DW := rfl
  have hgh : getCap (setCap 1 DH []) 1 = some DH := rfl
  have hgz : getCap (setCap 1 DZ []) 1 = some DZ := rfl
  econstructor
  rw [parseHtml.eq_def, hmf]
  dsimp only
  rw [hg2, hg3, hg4, hg5, hg6, hg7]
  simp only [Option.map_some', Option.map_none']
  rw [jsOr_some_ne _ hPempty, jsOr_some_ne _ hSempty, jsTruthy_some_ne hSempty]
  dsimp only
  rw [hw', hh', hz']
  dsimp only
  rw [hgw, hgh, hgz]
  simp only [Option.map_some']
  rw [jsTruthy_some_ne hWempty, jsTruthy_some_ne hHempty, jsTruthy_some_ne hZempty]
  dsimp only
  rw [jsTruthy_some_ne hPempty]
  dsimp only
  rw [show jsTrimStr ⟨P⟩ = (⟨P⟩ : String) from
    congrArg String.mk (jsTrim_of_all_not_ws P (fun c hc => safe_notWs c (hPs c hc))),
    parseIntBase10_mk DW, parseIntBase10_mk DH, parseIntBase10_mk DZ]

/-- C2 counterexample.  With the path `a"b` (which contains a double quote),
alt `c`, width 1, height 1, zoom 100, the rendered tag parses back with path
`"a"` and no width at all — not the original path and width, so the
unrestricted round-trip claim is false (the unescaped quote in the embedded
path truncates the `src` attribute and hides the `style` attribute from the
parser). -/
theorem c2_counterexample_quote_path :
    (parseImageSyntaxFromLine
        (renderImgTag "a\"b" (some "c") (some 1) (some 1) 100)).map
        (fun r => (r.path, r.specifiedWidth)) = some ("a", none) ∧
      ¬ (parseImageSyntaxFromLine
          (renderImgTag "a\"b" (some "c") (some 1) (some 1) 100)).map
          (fun r => (r.path, r.specifiedWidth)) = some ("a\"b", some 1) := by
  constructor
  · rfl
  · decide

/-- C2 amended.  For every path and alt text over the safe alphabet (ASCII
letters and digits, `.`, `/`, `_`, `-` — no quotes, no whitespace, no
HTML/Markdown metacharacters), nonempty path, positive width and height and
any zoom, parsing the rendered HTML tag succeeds and returns exactly the
rendered width, height, zoom and path. -/
theorem c2_amended_roundtrip (p a : String) (W H Z : Nat)
    (hp : p.data ≠ []) (hps : ∀ c ∈ p.data, safeChar c = true)
    (has : ∀ c ∈ a.data, safeChar c = true) (hW : 0 < W) (hH : 0 < H) :
    ∃ r, parseImageSyntaxFromLine
        (renderImgTag p (some a) (some W) (some H) Z) = some r ∧
      r.specifiedWidth = some W ∧ r.specifiedHeight = some H ∧
      r.currentZoomPercent = some Z ∧ r.path = p := by
  have hstr : renderImgTag p (some a) (some W) (some H) Z =
      ⟨tagChars p.data a.data (natDigits W) (natDigits H) (natDigits Z)⟩ :=
    congrArg String.mk (renderImgTag_data p a W H Z has hW hH)
  rw [hstr, parse_eq_parseHtml_of_no_bracket _
    (tagChars_no_bracket p.data a.data _ _ _ hps has
      (natDigits_all_dig W) (natDigits_all_dig H) (natDigits_all_dig Z))]
  obtain ⟨alt, hph⟩ := parseHtml_tag p.data a.data _ _ _ hp hps has
    (natDigits_ne_nil W) (natDigits_all_dig W)
    (natDigits_ne_nil H) (natDigits_all_dig H)
    (natDigits_ne_nil Z) (natDigits_all_dig Z)
  refine ⟨_, hph, ?_, ?_, ?_, ?_⟩
  · show some (digitsVal (natDigits W)) = some W
    rw [digitsVal_natDigits]
  · show some (digitsVal (natDigits H)) = some H
    rw [digitsVal_natDigits]
  · show some (digitsVal (natDigits Z)) = some Z
    rw [digitsVal_natDigits]
  · show (⟨p.data⟩ : String) = p
    rfl

/-- Witness for C2-amended at path `img.png`, alt `cap`, width 200,
height 100, zoom 42. -/
theorem c2_amended_roundtrip_witness :
    ("img.png" : String).data ≠ [] ∧
      (∃ r, parseImageSyntaxFromLine
          (renderImgTag "img.png" (some "cap") (some 200) (some 100) 42) =
            some r ∧
        r.specifiedWidth = some 200 ∧ r.specifiedHeight = some 100 ∧
        r.currentZoomPercent = some 42 ∧ r.path = "img.png") :=
  ⟨by decide, c2_amended_roundtrip "img.png" "cap" 200 100 42 (by decide)
    (by decide) (by decide) (by decide) (by decide)⟩

end ImageScaler
